import Mathlib

set_option maxRecDepth 100000

/-!
Verification of the build-and-launch request coordinator
(`src/binderhub/builder.py`) of the CS-binderhub repository.

The Python source is shallowly embedded as executable Lean definitions:
pure helpers (`_safe_build_slug`, `_generate_build_name`, the image-name
computation, the registry image-name split) are translated directly;
the streaming request handler `BuildHandler.get` and the launch retry
loop `BuildHandler.launch` are modelled as pure functions from an
environment (provider answers, build-queue events, launcher results,
pod listing) to the sequence of emitted event frames, recorded metric
observations, and the exit kind (normal return, unhandled exception,
or blocking forever on the queue).
-/

/-! ## Python string primitives -/

/-- Bytes of the UTF-8 encoding of one character, as in Python
`c.encode(utf8)`. -/
def utf8Bytes (c : Char) : List Nat :=
  let n := c.toNat
  if n < 0x80 then [n]
  else if n < 0x800 then [0xC0 + n / 0x40, 0x80 + n % 0x40]
  else if n < 0x10000 then [0xE0 + n / 0x1000, 0x80 + (n / 0x40) % 0x40, 0x80 + n % 0x40]
  else [0xF0 + n / 0x40000, 0x80 + (n / 0x1000) % 0x40, 0x80 + (n / 0x40) % 0x40, 0x80 + n % 0x40]

/-- UTF-8 bytes of a string, as in Python `s.encode(utf-8)`. -/
def strBytes (s : String) : List Nat := s.data.flatMap utf8Bytes

/-- Python slicing `l[:k]` where `k` may be negative (counting from the
end, as Python slices do). -/
def pyTake (k : Int) (l : List Char) : List Char :=
  if 0 ≤ k then l.take k.toNat else l.take (l.length - (-k).toNat)

/-- Python `s.rstrip('/')`. -/
def rstripSlash (s : String) : String := ⟨(s.data.reverse.dropWhile (fun c => c = '/')).reverse⟩

/-- Python ASCII `str.lower()`; all strings it is applied to in the
source are ASCII, where `Char.toLower` agrees with Python. -/
def toLowerStr (s : String) : String := ⟨s.data.map Char.toLower⟩

/-- Python `s.split(sep)` for a one-character separator: keeps empty
components, and the empty string yields one empty component. -/
def splitChar (sep : Char) : List Char → List (List Char)
  | [] => [[]]
  | c :: cs =>
    match splitChar sep cs with
    | [] => [[]]
    | r :: rs => if c = sep then [] :: r :: rs else (c :: r) :: rs

/-- Python `'/'.join(parts)` at the character-list level. -/
def joinSlash : List (List Char) → List Char
  | [] => []
  | [x] => x
  | x :: xs => x ++ '/' :: joinSlash xs

/-- Python `'/'.join(s.split('/')[-2:])`: the last two `/`-separated
components of `s`, rejoined. -/
def lastTwoSlashComponents (s : String) : String :=
  ⟨joinSlash (((splitChar '/' s.data).reverse.take 2).reverse)⟩

/-- Split a character list at its first colon, when it has one. -/
def breakAtColon : List Char → Option (List Char × List Char)
  | [] => none
  | c :: cs =>
    if c = ':' then some ([], cs)
    else
      match breakAtColon cs with
      | none => none
      | some (x, y) => some (c :: x, y)

/-- Python `s.split(':', 1)`: split at the leftmost colon, at most once. -/
def splitOnceColon (s : String) : List String :=
  match breakAtColon s.data with
  | none => [s]
  | some (x, y) => [⟨x⟩, ⟨y⟩]

/-- Python `s.rsplit(':', 1)[0]`: everything before the rightmost colon
(the whole string when there is no colon). Used to strip the tag from
an image name. -/
def dropTag (s : String) : String :=
  match breakAtColon s.data.reverse with
  | none => s
  | some (_, y) => ⟨y.reverse⟩

/-! ## SHA-256 (`hashlib.sha256(...).hexdigest()`)

Machine words are `Nat` reduced mod `2^32`. -/

def w32 (n : Nat) : Nat := n % 4294967296

def rotr (x n : Nat) : Nat := w32 ((x >>> n) ||| (x <<< (32 - n)))

def sha256K : List Nat :=
  [1116352408, 1899447441, 3049323471, 3921009573, 961987163,
   1508970993, 2453635748, 2870763221, 3624381080, 310598401,
   607225278, 1426881987, 1925078388, 2162078206, 2614888103,
   3248222580, 3835390401, 4022224774, 264347078, 604807628,
   770255983, 1249150122, 1555081692, 1996064986, 2554220882,
   2821834349, 2952996808, 3210313671, 3336571891, 3584528711,
   113926993, 338241895, 666307205, 773529912, 1294757372,
   1396182291, 1695183700, 1986661051, 2177026350, 2456956037,
   2730485921, 2820302411, 3259730800, 3345764771, 3516065817,
   3600352804, 4094571909, 275423344, 430227734, 506948616,
   659060556, 883997877, 958139571, 1322822218, 1537002063,
   1747873779, 1955562222, 2024104815, 2227730452, 2361852424,
   2428436474, 2756734187, 3204031479, 3329325298]

structure H8 where
  a : Nat
  b : Nat
  c : Nat
  d : Nat
  e : Nat
  f : Nat
  g : Nat
  h : Nat

def initH : H8 :=
  ⟨1779033703, 3144134277, 1013904242, 2773480762,
   1359893119, 2600822924, 528734635, 1541459225⟩

def compressStep (st : H8) (k w : Nat) : H8 :=
  let s1 := rotr st.e 6 ^^^ rotr st.e 11 ^^^ rotr st.e 25
  let ch := (st.e &&& st.f) ^^^ ((0xFFFFFFFF ^^^ st.e) &&& st.g)
  let t1 := w32 (st.h + s1 + ch + k + w)
  let s0 := rotr st.a 2 ^^^ rotr st.a 13 ^^^ rotr st.a 22
  let mj := (st.a &&& st.b) ^^^ (st.a &&& st.c) ^^^ (st.b &&& st.c)
  let t2 := w32 (s0 + mj)
  ⟨w32 (t1 + t2), st.a, st.b, st.c, w32 (st.d + t1), st.e, st.f, st.g⟩

def extendW (acc : List Nat) : Nat → List Nat
  | 0 => acc
  | n + 1 =>
    let i := acc.length
    let x15 := acc.getD (i - 15) 0
    let x2 := acc.getD (i - 2) 0
    let s0 := rotr x15 7 ^^^ rotr x15 18 ^^^ (x15 >>> 3)
    let s1 := rotr x2 17 ^^^ rotr x2 19 ^^^ (x2 >>> 10)
    extendW (acc ++ [w32 (acc.getD (i - 16) 0 + s0 + acc.getD (i - 7) 0 + s1)]) n

def bytesToWords : List Nat → List Nat
  | b0 :: b1 :: b2 :: b3 :: rest => (b0 * 16777216 + b1 * 65536 + b2 * 256 + b3) :: bytesToWords rest
  | _ => []

def sha256pad (msg : List Nat) : List Nat :=
  let len := msg.length
  let bitlen := len * 8
  let zeros := (119 - len % 64) % 64
  msg ++ [0x80] ++ List.replicate zeros 0 ++
    [(bitlen >>> 56) % 256, (bitlen >>> 48) % 256, (bitlen >>> 40) % 256, (bitlen >>> 32) % 256,
     (bitlen >>> 24) % 256, (bitlen >>> 16) % 256, (bitlen >>> 8) % 256, bitlen % 256]

/-- Split a byte list into 64-byte chunks. The `Nat` fuel makes the
recursion structural; it is called with fuel at least the list length. -/
def chunks64 : Nat → List Nat → List (List Nat)
  | 0, _ => []
  | _, [] => []
  | fuel + 1, l => l.take 64 :: chunks64 fuel (l.drop 64)

def processChunk (h0 : H8) (chunk : List Nat) : H8 :=
  let w := extendW (bytesToWords chunk) 48
  let st := (sha256K.zip w).foldl (fun s kw => compressStep s kw.1 kw.2) h0
  ⟨w32 (h0.a + st.a), w32 (h0.b + st.b), w32 (h0.c + st.c), w32 (h0.d + st.d),
   w32 (h0.e + st.e), w32 (h0.f + st.f), w32 (h0.g + st.g), w32 (h0.h + st.h)⟩

def wordBytesBE (x : Nat) : List Nat := [(x >>> 24) % 256, (x >>> 16) % 256, (x >>> 8) % 256, x % 256]

def sha256bytes (msg : List Nat) : List Nat :=
  let padded := sha256pad msg
  let h := (chunks64 padded.length padded).foldl processChunk initH
  wordBytesBE h.a ++ wordBytesBE h.b ++ wordBytesBE h.c ++ wordBytesBE h.d ++
  wordBytesBE h.e ++ wordBytesBE h.f ++ wordBytesBE h.g ++ wordBytesBE h.h

/-- Lowercase hexadecimal digit, for `hexdigest`. -/
def hexCharLower (n : Nat) : Char := Char.ofNat (if n < 10 then 48 + n else 87 + n)

def byteHexLower (b : Nat) : List Char := [hexCharLower ((b / 16) % 16), hexCharLower (b % 16)]

/-- Python `hashlib.sha256(s.encode(utf-8)).hexdigest()`. -/
def hexdigest (s : String) : String := ⟨(sha256bytes (strBytes s)).flatMap byteHexLower⟩

/-! ## `escapism.escape` with `safe = ascii_letters + digits`,
`escape_char = '-'` (the call made by `_safe_build_slug`) -/

/-- Membership in `set(string.ascii_letters + string.digits)`. -/
def safeChar (c : Char) : Bool :=
  (65 ≤ c.toNat && c.toNat ≤ 90) || (97 ≤ c.toNat && c.toNat ≤ 122) || (48 ≤ c.toNat && c.toNat ≤ 57)

/-- Uppercase hexadecimal digit, for the Python percent-X format of a byte. -/
def hexCharUpper (n : Nat) : Char := Char.ofNat (if n < 10 then 48 + n else 55 + n)

/-- Python percent-X formatting of a byte `b < 256`: no leading zero. -/
def pctX (b : Nat) : List Char :=
  if b < 16 then [hexCharUpper b] else [hexCharUpper (b / 16), hexCharUpper (b % 16)]

/-- Python `escapism._escape_char` with escape char dash: each UTF-8 byte becomes
`'-'` followed by its uppercase hex. -/
def escapeChar (c : Char) : List Char := (utf8Bytes c).flatMap (fun b => '-' :: pctX b)

/-- Python `escapism.escape` with safe set `ascii_letters + digits` and
escape char dash. -/
def escape (s : String) : String :=
  ⟨s.data.flatMap (fun c => if safeChar c then [c] else escapeChar c)⟩

/-! ## Name mangler (`_safe_build_slug`, `_generate_build_name`,
image-name computation from `BuildHandler.get`) -/

/-- Lean form of `_safe_build_slug(build_slug, limit, hash_length=6)`:
`(escape(slug)[:limit - hash_length - 1] + '-' + sha256(slug)[:hash_length]).lower()`.
The limit is an `Int` because Python computes it by subtraction and a
negative value slices from the end. -/
def _safe_build_slug (build_slug : String) (limit : Int) (hash_length : Nat) : String :=
  let slug_hash := hexdigest build_slug
  let escaped := escape build_slug
  toLowerStr ⟨pyTake (limit - hash_length - 1) escaped.data ++ '-' :: slug_hash.data.take hash_length⟩

/-- Lean form of `_generate_build_name(build_slug, ref, prefix, limit=63,
ref_length=6)`; `pfx` is the Python `prefix` argument. -/
def _generate_build_name (build_slug ref pfx : String) (limit ref_length : Nat) : String :=
  let safe_slug := _safe_build_slug build_slug ((limit : Int) - pfx.length - ref_length - 1) 6
  let safe_ref := _safe_build_slug ref ref_length 2
  toLowerStr (pfx ++ safe_slug ++ "-" ++ ⟨safe_ref.data.take ref_length⟩)

/-- The image name computed in `BuildHandler.get`:
`'{prefix}{build_slug}:{ref}'.replace('_', '-').lower()` with
`build_slug = _safe_build_slug(slug, limit=255 - len(image_prefix))`;
`imagePfx` is the `image_prefix` setting. -/
def imageNameOf (imagePfx slug ref : String) : String :=
  let safe_slug := _safe_build_slug slug ((255 : Int) - imagePfx.length) 6
  toLowerStr ⟨(imagePfx ++ safe_slug ++ ":" ++ ref).data.map (fun c => if c = '_' then '-' else c)⟩

/-! ## Client event frames

A frame is one `data: <json>\n\n` write. Log events are emitted verbatim
(`event = progress[payload]`); their payload is modelled as the raw
string plus the `phase` field its JSON parse may contain. -/

structure LogPayload where
  raw : String
  phase : Option String
deriving DecidableEq, Repr

inductive Frame where
  | ev (phase : String) (message : Option String) (imageName : Option String)
       (authUrl : Option String) (url : Option String)
  | log (p : LogPayload)
  | errEv (statusCode : Nat) (message : String)
deriving DecidableEq, Repr

/-- The `phase` field of the frame JSON object; `errEv` is the frame the
overridden `send_error` writes, whose phase is always `failed`. -/
def Frame.phase? : Frame → Option String
  | .ev p _ _ _ _ => some p
  | .log p => p.phase
  | .errEv _ _ => some "failed"

/-- The `BuildHandler.fail` helper: a `failed` frame with a newline
appended to the message. -/
def Frame.fail (m : String) : Frame := .ev "failed" (some (m ++ "\n")) none none none

/-- The `failed` frame emitted on the last launch attempt: message is
`str(e)`, no newline appended. -/
def Frame.failRaw (m : String) : Frame := .ev "failed" (some m) none none none

/-- The bare `{phase: payload}` frame for an unrecognized pod
phase. -/
def Frame.podPhase (pl : String) : Frame := .ev pl none none none none

def authFrame (url : String) : Frame :=
  .ev "auth" (some "Authorization required...\n") none (some url) none

def waitingFrame : Frame :=
  .ev "waiting" (some "Waiting for build to start...\n") none none none

def builtFoundFrame (img : String) : Frame :=
  .ev "built" (some "Found built image, launching...\n") (some img) none none

def builtFrame (img : String) : Frame :=
  .ev "built" (some "Built image, launching...\n") (some img) none none

def launchingFrame : Frame :=
  .ev "launching" (some "Launching server...\n") none none none

/-- Retry frame for 0-based failed attempt `i`: the message interpolates
`i+1`. -/
def retryFrame (i : Nat) : Frame :=
  .ev "launching"
    (some ("Launch attempt " ++ toString (i + 1) ++ " failed, retrying...\n" ++
           "起動に" ++ toString (i + 1) ++ "回失敗しました。リトライしています...\n"))
    none none none

/-- The terminal `ready` frame; `event.update(server_info)` adds the
`url` field. -/
def readyFrame (url : String) : Frame :=
  .ev "ready" (some ("server running at " ++ url ++ "\n")) none none (some url)

def bannedMessage (spec : String) : String :=
  "Sorry, " ++ spec ++ " has been temporarily disabled from launching. Please contact admins for more info!" ++
  "\n" ++ spec ++ "が一時的に起動できなくなりました。管理者へお問い合わせください。"

def quotaMessage (repoUrl : String) : String :=
  "Too many users running " ++ repoUrl ++ "! Try again soon.\n" ++
  repoUrl ++ "の実行が集中しています。しばらく待っても改善しない場合は、管理者へお問い合わせください。"

/-! ## Metric observations

Durations are wall-clock and not modelled; an observation records the
instrument and its label values. The `retries` label of `launch_time`
is an `Int` because the source uses `-1` on non-success. -/

inductive Metric where
  | buildTime (status : String)
  | buildCount (status : String)
  | launchTime (status : String) (retriesLabel : Int)
  | launchCount (status : String)
deriving DecidableEq, Repr

/-! ## Registry image probe (`use_registry` branch of `get`) -/

/-- Result of one `registry.get_image_manifest` call: a raised
`HTTPClientError`, or a returned manifest whose Python truthiness is
`truthy`. -/
inductive RegResult where
  | err
  | manifest (truthy : Bool)
deriving DecidableEq, Repr

/-- The `(repo, tag)` argument list of `get_image_manifest`:
`'/'.join(image_name.split('/')[-2:]).split(':', 1)`. -/
def registryCallArgs (image : String) : List String :=
  splitOnceColon (lastTwoSlashComponents image)

/-- The `for _ in range(3)` retry loop around `get_image_manifest`,
unrolled to its three iterations: returns `(image_found, number of
calls made)`. On an `HTTPClientError` the attempt sets
`image_found = False` and the loop continues; a returned manifest sets
`image_found = bool(manifest)` and breaks; after the third error the
loop ends with `image_found = False`. -/
def probe3 ( res : Nat → RegResult) : Bool × Nat :=
  match res 0 with
  | .manifest t => (t, 1)
  | .err =>
    match res 1 with
    | .manifest t => (t, 2)
    | .err =>
      match res 2 with
      | .manifest t => (t, 3)
      | .err => (false, 3)

def imageFoundRegistry ( res : Nat → RegResult) : Bool := (probe3 res).1

def probeCalls ( res : Nat → RegResult) : Nat := (probe3 res).2

/-! ## Build event loop (`while not done` in `BuildHandler.get`) -/

inductive BuildEvent where
  | phasechange (payload : String)
  | log (payload : LogPayload)
deriving DecidableEq, Repr

structure BuildLoopState where
  frames : List Frame
  metrics : List Metric
  logSubmits : Nat
  failed : Bool
  done : Bool
deriving DecidableEq, Repr

def initBuildState : BuildLoopState :=
  { frames := [], metrics := [], logSubmits := 0, failed := false, done := false }

/-- One iteration of the queue-consumption loop, given the event just
read. `img` is the computed image name. Mirrors the `elif` chain of the
source: `Pending`, `Deleted`, `Running`, `Succeeded`, other; then the
`log` branch, which records failure metrics when the parsed payload field
`phase` is `failure` or `failed`, and finally emits the event. -/
def buildStep (img : String) (st : BuildLoopState) (e : BuildEvent) : BuildLoopState :=
  match e with
  | .phasechange pl =>
    if pl = "Pending" then st
    else if pl = "Deleted" then
      { st with frames := st.frames ++ [builtFrame img], done := true }
    else if pl = "Running" then
      (if st.logSubmits = 0 then { st with logSubmits := st.logSubmits + 1 } else st)
    else if pl = "Succeeded" then st
    else { st with frames := st.frames ++ [Frame.podPhase pl] }
  | .log p =>
    let st1 :=
      if p.phase = some "failure" ∨ p.phase = some "failed" then
        { st with failed := true,
                  metrics := st.metrics ++ [Metric.buildTime "failure", Metric.buildCount "failure"] }
      else st
    { st1 with frames := st1.frames ++ [Frame.log p] }

/-- The loop itself: consume queue events until `done`. A real queue
blocks when starved, so exhausting the event list with `done = false`
leaves the state with `done = false` (the caller marks the request
blocked). -/
def buildLoop (img : String) (st : BuildLoopState) : List BuildEvent → BuildLoopState
  | [] => st
  | e :: es => if st.done then st else buildLoop img (buildStep img st e) es

/-! ## Launch retry loop (`BuildHandler.launch`) -/

/-- Result of one `launcher.launch` call: an exception with message
`str(e)`, or a `server_info` whose `url` field is `url`. -/
inductive LaunchResult where
  | err (msg : String)
  | ok (url : String)
deriving DecidableEq, Repr

inductive PyExn where
  | typeError
  | launchErr (msg : String)
  | unboundLocal
deriving DecidableEq, Repr

structure LaunchOutcome where
  frames : List Frame
  metrics : List Metric
  sleeps : List Nat
  attempts : Nat
  exn : Option PyExn
deriving DecidableEq, Repr

/-- The `for i in range(launcher.retries)` loop. `fuel` is the number of
attempts still allowed, so `fuel = 1` is the last attempt
(`i + 1 == launcher.retries`); the loop starts at `fuel = retries`,
`i = 0`, `delay = launcher.retry_delay`. On exception: observe
`launch_time{status, retries=-1}` (`failure` on the last attempt, else
`retry`); on the last attempt also `launch_count{failure}`, emit the
`failed` frame and re-raise; otherwise emit the retry frame, sleep
`delay`, double it. On success: observe `launch_time{success, retries=i}`
and `launch_count{success}`, then emit the `ready` frame after the loop.
`fuel = 0` at entry means `range(0)`: the loop body never runs and the
dangling `server_info[url]` read raises `UnboundLocalError`. -/
def launchLoop ( res : Nat → LaunchResult) : Nat → Nat → Nat → LaunchOutcome
  | 0, _, _ => { frames := [], metrics := [], sleeps := [], attempts := 0, exn := some .unboundLocal }
  | fuel + 1, i, delay =>
    match res i with
    | .ok url =>
      { frames := [readyFrame url],
        metrics := [Metric.launchTime "success" (Int.ofNat i), Metric.launchCount "success"],
        sleeps := [], attempts := 1, exn := none }
    | .err m =>
      if fuel = 0 then
        { frames := [Frame.failRaw m],
          metrics := [Metric.launchTime "failure" (-1), Metric.launchCount "failure"],
          sleeps := [], attempts := 1, exn := some (.launchErr m) }
      else
        let rest := launchLoop res fuel (i + 1) (2 * delay)
        { frames := retryFrame i :: rest.frames,
          metrics := Metric.launchTime "retry" (-1) :: rest.metrics,
          sleeps := delay :: rest.sleeps,
          attempts := rest.attempts + 1,
          exn := rest.exn }

/-- A pod from `list_namespaced_pod`, reduced to the images of its
containers. -/
def podMatches (imageNoTag : String) (containers : List String) : Bool :=
  containers.any (fun c => dropTag c = imageNoTag)

/-- Number of listed pods whose first matching container image (tag
stripped) equals the request image without tag; the inner `break`
counts each pod at most once. -/
def matchingPods (pods : List (List String)) (imageNoTag : String) : Nat :=
  (pods.filter (podMatches imageNoTag)).length

/-- Python `if quota and matching_pods >= quota:` — `quota` must be
truthy (not `None` and nonzero). -/
def quotaBlocked (quota : Option Nat) (matching : Nat) : Bool :=
  match quota with
  | none => false
  | some q => decide (q ≠ 0) && decide (q ≤ matching)

structure LaunchEnv where
  pods : List (List String)
  quota : Option Nat
  image : String
  repoUrl : String
  retries : Nat
  retryDelay : Nat
  results : Nat → LaunchResult

/-- The model of `BuildHandler.launch`: quota check first (emitting the quota
failure and returning without any launch attempt when it trips), then
the `launching` frame, then the retry loop. -/
def launchModel (env : LaunchEnv) : LaunchOutcome :=
  if quotaBlocked env.quota (matchingPods env.pods (dropTag env.image)) then
    { frames := [Frame.fail (quotaMessage env.repoUrl)],
      metrics := [], sleeps := [], attempts := 0, exn := none }
  else
    let lo := launchLoop env.results env.retries 0 env.retryDelay
    { lo with frames := launchingFrame :: lo.frames }

/-! ## The request handler (`BuildHandler.get`) -/

inductive ExitKind where
  | normal
  | raised (e : PyExn)
  | blocked
deriving DecidableEq, Repr

structure Outcome where
  frames : List Frame
  metrics : List Metric
  exit : ExitKind
  refRead : Bool
  attempts : Nat
deriving DecidableEq, Repr

/-- Everything the handler consumes from its collaborators during one
request. Provider calls are recorded as their answers; the build queue
as the list of events the builder will push. -/
structure GetEnv where
  providerPfx : String
  spec : String
  providerExists : Bool
  getProviderError : Option String
  isBanned : Bool
  authProviderId : Option String
  userctx : Option String
  authEnabled : Bool
  storedToken : Option String
  storedTokenValid : Bool
  repoToken : Option String
  authUrl : String
  providerName : String
  unresolvedRef : String
  resolvedRef : Except String (Option String)
  repoUrl : String
  buildSlug : String
  imagePfx : String
  useRegistry : Bool
  regResults : Nat → RegResult
  localImageFound : Bool
  buildEvents : List BuildEvent
  quota : Option Nat
  pods : List (List String)
  retries : Nat
  retryDelay : Nat
  launchResults : Nat → LaunchResult

def GetEnv.launchEnv (env : GetEnv) (img : String) : LaunchEnv :=
  { pods := env.pods, quota := env.quota, image := img, repoUrl := env.repoUrl,
    retries := env.retries, retryDelay := env.retryDelay, results := env.launchResults }

def exitOfLaunch (lo : LaunchOutcome) : ExitKind :=
  match lo.exn with
  | none => .normal
  | some e => .raised e

/-- The guided failure message when the ref resolves to `None`. -/
def refNoneMessage (env : GetEnv) (key : String) : String :=
  String.intercalate "\n"
    (["Could not resolve ref for " ++ key ++ ". Double check your URL.",
      "リポジトリURLを確認してください。"] ++
     (if env.providerName = "GitHub" then
        ["GitHub recently changed default branches from \"master\" to \"main\".",
         "GitHub は2020年に、デフォルトブランチ名を \"master\" から \"main\" へ変更しました。"] ++
        (if env.unresolvedRef = "master" then
           ["Did you mean the \"main\" branch?", "\"main\" ブランチではありませんか？"]
         else if env.unresolvedRef = "main" then
           ["Did you mean the \"master\" branch?", "\"master\" ブランチではありませんか？"]
         else [])
      else
        ["Is your repo public?", "リポジトリが公開されていない可能性があります。"]))

/-- The build branch of `get` (probe miss): emit the `waiting` frame,
drive the event loop, and when the loop finished without a failure log,
record the success build metrics and launch. A starved queue leaves the
handler blocked on `await q.get()`. -/
def buildPath (img : String) (lenv : LaunchEnv) (events : List BuildEvent) : Outcome :=
  let st := buildLoop img initBuildState events
  if st.done then
    if st.failed then
      { frames := waitingFrame :: st.frames, metrics := st.metrics,
        exit := .normal, refRead := true, attempts := 0 }
    else
      let lo := launchModel lenv
      { frames := waitingFrame :: st.frames ++ lo.frames,
        metrics := st.metrics ++ [Metric.buildTime "success", Metric.buildCount "success"] ++ lo.metrics,
        exit := exitOfLaunch lo, refRead := true, attempts := lo.attempts }
  else
    { frames := waitingFrame :: st.frames, metrics := st.metrics,
      exit := .blocked, refRead := true, attempts := 0 }

/-- Steps of `get` from ref resolution onward (after the auth gate). -/
def getAfterAuth (env : GetEnv) : Outcome :=
  let key := env.providerPfx ++ ":" ++ rstripSlash env.spec
  match env.resolvedRef with
  | .error e =>
    { frames := [Frame.fail ("Error resolving ref for " ++ key ++ ": " ++ e ++
                             "\nリポジトリURLを確認してください。")],
      metrics := [], exit := .normal, refRead := true, attempts := 0 }
  | .ok none =>
    { frames := [Frame.fail (refNoneMessage env key)],
      metrics := [], exit := .normal, refRead := true, attempts := 0 }
  | .ok (some ref) =>
    let img := imageNameOf env.imagePfx env.buildSlug ref
    let found := if env.useRegistry then imageFoundRegistry env.regResults else env.localImageFound
    if found then
      let lo := launchModel (env.launchEnv img)
      { frames := builtFoundFrame img :: lo.frames, metrics := lo.metrics,
        exit := exitOfLaunch lo, refRead := true, attempts := lo.attempts }
    else
      buildPath img (env.launchEnv img) env.buildEvents

/-- The model of `BuildHandler.get` as a function from the environment to its
observable outcome. The branches mirror the source order: provider
lookup, provider construction, ban check, the `userctx` concatenation
(which raises `TypeError` when `get_authorization_provider()` returned
`None`), the auth gate, then `getAfterAuth`. -/
def getModel (env : GetEnv) : Outcome :=
  if env.providerExists = false then
    { frames := [Frame.fail ("No provider found for prefix " ++ env.providerPfx)],
      metrics := [], exit := .normal, refRead := false, attempts := 0 }
  else
    match env.getProviderError with
    | some e =>
      { frames := [Frame.fail e], metrics := [], exit := .normal, refRead := false, attempts := 0 }
    | none =>
      if env.isBanned then
        { frames := [Frame.ev "failed" (some (bannedMessage (rstripSlash env.spec))) none none none],
          metrics := [], exit := .normal, refRead := false, attempts := 0 }
      else
        match env.authProviderId, env.userctx with
        | none, some _ =>
          { frames := [], metrics := [], exit := .raised .typeError, refRead := false, attempts := 0 }
        | apid0, uc =>
          let apid := match apid0, uc with
            | some a, some u => some (a ++ "-" ++ u)
            | some a, none => some a
            | none, _ => none
          if apid.isSome && env.authEnabled then
            let tok0 := if env.storedToken.isSome && !env.storedTokenValid then none
                        else env.storedToken
            match env.repoToken with
            | some _ => getAfterAuth env
            | none =>
              match tok0 with
              | none =>
                { frames := [authFrame env.authUrl], metrics := [], exit := .normal,
                  refRead := false, attempts := 0 }
              | some _ => getAfterAuth env
          else getAfterAuth env


/-- The retry frames emitted by `k` consecutive failed launch attempts
starting at 0-based attempt index `i`. -/
def retrySeq (i : Nat) : Nat → List Frame
  | 0 => []
  | k + 1 => retryFrame i :: retrySeq (i + 1) k

/-- The backoff sleeps for `k` consecutive failed launch attempts:
`delay`, then doubling after each failure. -/
def sleepSeq (delay : Nat) : Nat → List Nat
  | 0 => []
  | k + 1 => delay :: sleepSeq (2 * delay) k

/-- Modelled from the spec: `BaseHandler.extract_message` lives in
base.py, which is not under src/. The spec fixes only the error frame
shape `{phase: failed, status_code, message}`, so the message is
modelled as the text of the escaped exception; no claim depends on it. -/
def extract_message : PyExn → String
  | .typeError => "TypeError: unsupported operand type for +="
  | .launchErr m => m
  | .unboundLocal => "UnboundLocalError: server_info"

/-- The overridden `BuildHandler.send_error` (lines 161-177): when an
exception other than `Finish` escapes `get`, the framework invokes
`send_error(500, exc_info)`, which unconditionally writes one more
`data:` frame `{phase: failed, status_code, message}` and finishes the
response. A request blocked on the queue never returns, so nothing more
is written. -/
def sendErrorFrames : ExitKind → List Frame
  | .raised e => [Frame.errEv 500 (extract_message e ++ "\n")]
  | _ => []

/-- The full data-frame sequence of one response: the frames `get`
itself emits, followed by the frame `send_error` writes when `get`
raises. -/
def streamFrames (env : GetEnv) : List Frame :=
  (getModel env).frames ++ sendErrorFrames (getModel env).exit

/-! ## Predicates and concrete environments used by the claims -/

/-- A frame is terminal when its `phase` field is `ready` or `failed`. -/
def isTerminal (f : Frame) : Bool := f.phase? == some "ready" || f.phase? == some "failed"

def terminalCount (fs : List Frame) : Nat := (fs.filter isTerminal).length

/-- Every frame except possibly the last one is non-terminal. -/
def nonTerminalBody (fs : List Frame) : Bool := fs.dropLast.all (fun f => !isTerminal f)

/-- A frame whose phase field is `ready`. -/
def isReady (f : Frame) : Bool := f.phase? == some "ready"

/-- Every frame except possibly the final two is non-terminal. -/
def tailTerminalOnly (fs : List Frame) : Bool :=
  fs.dropLast.dropLast.all (fun f => !isTerminal f)

/-- A queue event that does not itself inject the strings `ready` or
`failed` as a phase. -/
def cleanEvent : BuildEvent → Bool
  | .phasechange pl => !(pl == "ready") && !(pl == "failed")
  | .log p => !(p.phase == some "ready") && !(p.phase == some "failed")

/-- Lowercase ASCII letter, digit, or dash. -/
def isLowerAlnumDash (c : Char) : Bool :=
  (97 ≤ c.toNat && c.toNat ≤ 122) || (48 ≤ c.toNat && c.toNat ≤ 57) || (c.toNat == 45)

/-- ASCII letter (either case), digit, or dash. -/
def isAlnumDash (c : Char) : Bool := (65 ≤ c.toNat && c.toNat ≤ 90) || isLowerAlnumDash c

/-- Lowercase hexadecimal digit (so in particular not a dash). -/
def isLowerHex (c : Char) : Bool :=
  (48 ≤ c.toNat && c.toNat ≤ 57) || (97 ≤ c.toNat && c.toNat ≤ 102)

/-- No leading dash, no trailing dash, no underscore. -/
def noEdgeDashNoUnderscore (s : String) : Bool :=
  !(s.data.head? == some '-') && !(s.data.getLast? == some '-') && !s.data.contains '_'

/-- The split the spec describes for the registry probe: at the
rightmost colon. Written from the spec sentence, to be compared with
`registryCallArgs`. -/
def registrySplitRightmost (image : String) : List String :=
  match breakAtColon image.data.reverse with
  | none => [image]
  | some (x, y) => [⟨y.reverse⟩, ⟨x.reverse⟩]

/-- A request environment that reaches the build path with a benign
event stream and a first-attempt launch success. -/
def envBuildOk : GetEnv :=
  { providerPfx := "gh", spec := "owner/repo/main", providerExists := true,
    getProviderError := none, isBanned := false, authProviderId := none,
    userctx := none, authEnabled := false, storedToken := none, storedTokenValid := false,
    repoToken := none, authUrl := "", providerName := "GitHub", unresolvedRef := "main",
    resolvedRef := .ok (some "abc123"), repoUrl := "https://github.com/owner/repo",
    buildSlug := "owner-repo", imagePfx := "", useRegistry := false,
    regResults := fun _ => .err, localImageFound := false,
    buildEvents := [.phasechange "Pending", .phasechange "Running",
                    .log { raw := "{}", phase := none }, .phasechange "Deleted"],
    quota := none, pods := [], retries := 1, retryDelay := 1,
    launchResults := fun _ => .ok "http://hub/user/x" }

/-- Like `envBuildOk` but the builder queue reports the pod phase
`failed` before `Deleted`: the handler echoes it as a frame and then
still launches. -/
def envTwoTerminals : GetEnv :=
  { envBuildOk with buildEvents := [.phasechange "failed", .phasechange "Deleted"] }

/-- A launch environment whose repo configuration defines `quota: 0`. -/
def envQuotaZero : LaunchEnv :=
  { pods := [], quota := some 0, image := "img:tag", repoUrl := "http://r",
    retries := 1, retryDelay := 1, results := fun _ => .ok "http://u" }

/-- A request carrying `userctx` against a provider with no
authorization provider. -/
def envUserctx : GetEnv :=
  { envBuildOk with userctx := some "ctx", authEnabled := true }

/-- Launcher results failing twice, then succeeding. -/
def resTwoErrs : Nat → LaunchResult :=
  fun k => if k < 2 then .err "boom" else .ok "http://u"

/-- Registry results: one transport error, then a truthy manifest. -/
def regErrThenHit : Nat → RegResult :=
  fun k => if k = 0 then .err else .manifest true

/-- A build-loop state mid-stream (log streaming already submitted). -/
def stMid : BuildLoopState :=
  { frames := [waitingFrame], metrics := [], logSubmits := 1, failed := false, done := false }

/-! ## Helper lemmas: strings and characters -/

theorem data_mk (l : List Char) : (String.mk l).data = l := rfl

theorem length_mk (l : List Char) : (String.mk l).length = l.length := rfl

theorem data_append (s t : String) : (s ++ t).data = s.data ++ t.data := by
  rcases s with ⟨a⟩
  rcases t with ⟨b⟩
  rfl

theorem length_eq_data (s : String) : s.length = s.data.length := rfl

theorem char_toNat_ofNat (n : Nat) (h : n.isValidChar) : (Char.ofNat n).toNat = n := by
  simp [Char.ofNat, h, Char.ofNatAux, Char.toNat, UInt32.toNat, BitVec.toNat_ofNatLt]

theorem char_toNat_lt (c : Char) : c.toNat < 1114112 := by
  change c.val.toNat < 1114112
  rcases c.valid with h | ⟨h1, h2⟩
  · omega
  · omega

theorem toLower_toNat_of_upper (c : Char) (h : 65 ≤ c.toNat ∧ c.toNat ≤ 90) :
    (Char.toLower c).toNat = c.toNat + 32 := by
  have hv : (c.toNat + 32).isValidChar := by
    constructor
    omega
  simp only [Char.toLower]
  rw [if_pos ⟨h.1, h.2⟩]
  exact char_toNat_ofNat _ hv

theorem toLower_of_not_upper (c : Char) (h : ¬(65 ≤ c.toNat ∧ c.toNat ≤ 90)) :
    Char.toLower c = c := by
  simp only [Char.toLower]
  rw [if_neg]
  omega

theorem lower_of_alnumDash (c : Char) (h : isAlnumDash c = true) :
    isLowerAlnumDash (Char.toLower c) = true := by
  simp only [isAlnumDash, isLowerAlnumDash, Bool.or_eq_true, Bool.and_eq_true,
    decide_eq_true_eq, beq_iff_eq] at h ⊢
  by_cases hu : 65 ≤ c.toNat ∧ c.toNat ≤ 90
  · rw [toLower_toNat_of_upper c hu]
    omega
  · rw [toLower_of_not_upper c hu]
    omega

theorem lowerAlnumDash_sub (c : Char) (h : isLowerAlnumDash c = true) : isAlnumDash c = true := by
  simp only [isAlnumDash, Bool.or_eq_true]
  right
  exact h

theorem lowerHex_sub (c : Char) (h : isLowerHex c = true) : isLowerAlnumDash c = true := by
  simp only [isLowerHex, isLowerAlnumDash, Bool.or_eq_true, Bool.and_eq_true,
    decide_eq_true_eq, beq_iff_eq] at h ⊢
  omega

theorem lowerHex_ne_dash (c : Char) (h : isLowerHex c = true) : (c == '-') = false := by
  simp only [isLowerHex, Bool.or_eq_true, Bool.and_eq_true, decide_eq_true_eq] at h
  simp only [beq_eq_false_iff_ne, ne_eq]
  intro he
  subst he
  revert h
  decide

theorem toLower_fix_lower (c : Char) (h : isLowerAlnumDash c = true) : Char.toLower c = c := by
  simp only [isLowerAlnumDash, Bool.or_eq_true, Bool.and_eq_true,
    decide_eq_true_eq, beq_iff_eq] at h
  apply toLower_of_not_upper
  omega

/-! ## Helper lemmas: escape and hexdigest character classes -/

theorem utf8Bytes_lt (c : Char) : ∀ b ∈ utf8Bytes c, b < 256 := by
  intro b hb
  have hc := char_toNat_lt c
  simp only [utf8Bytes] at hb
  split_ifs at hb with h1 h2 h3
  · simp only [List.mem_singleton] at hb
    omega
  · simp only [List.mem_cons, List.mem_singleton, List.not_mem_nil, or_false] at hb
    rcases hb with rfl | rfl <;> omega
  · simp only [List.mem_cons, List.mem_singleton, List.not_mem_nil, or_false] at hb
    rcases hb with rfl | rfl | rfl <;> omega
  · simp only [List.mem_cons, List.mem_singleton, List.not_mem_nil, or_false] at hb
    rcases hb with rfl | rfl | rfl | rfl <;> omega

theorem hexCharUpper_alnum (n : Nat) (h : n < 16) : isAlnumDash (hexCharUpper n) = true := by
  have hv : (if n < 10 then 48 + n else 55 + n).isValidChar := by
    constructor
    split <;> omega
  simp only [isAlnumDash, isLowerAlnumDash, hexCharUpper, Bool.or_eq_true, Bool.and_eq_true,
    decide_eq_true_eq, beq_iff_eq, char_toNat_ofNat _ hv]
  split <;> omega

theorem pctX_alnum (b : Nat) (hb : b < 256) : ∀ x ∈ pctX b, isAlnumDash x = true := by
  intro x hx
  simp only [pctX] at hx
  split_ifs at hx with h16 <;>
    simp only [List.mem_cons, List.mem_singleton, List.not_mem_nil, or_false] at hx
  · subst hx
    exact hexCharUpper_alnum b h16
  · rcases hx with rfl | rfl
    · exact hexCharUpper_alnum _ (by omega)
    · exact hexCharUpper_alnum _ (by omega)

theorem escapeChar_alnum (c : Char) : ∀ x ∈ escapeChar c, isAlnumDash x = true := by
  intro x hx
  simp only [escapeChar, List.mem_flatMap, List.mem_cons] at hx
  obtain ⟨b, hb, hx⟩ := hx
  rcases hx with rfl | hx
  · decide
  · exact pctX_alnum b (utf8Bytes_lt c b hb) x hx

theorem safeChar_alnum (c : Char) (h : safeChar c = true) : isAlnumDash c = true := by
  simp only [safeChar, Bool.or_eq_true, Bool.and_eq_true, decide_eq_true_eq] at h
  simp only [isAlnumDash, isLowerAlnumDash, Bool.or_eq_true, Bool.and_eq_true,
    decide_eq_true_eq, beq_iff_eq]
  omega

theorem escape_chars (s : String) : ∀ x ∈ (escape s).data, isAlnumDash x = true := by
  intro x hx
  simp only [escape, data_mk, List.mem_flatMap] at hx
  obtain ⟨c, _, hx⟩ := hx
  by_cases hs : safeChar c = true
  · rw [if_pos hs] at hx
    simp only [List.mem_singleton] at hx
    subst hx
    exact safeChar_alnum _ hs
  · rw [if_neg hs] at hx
    exact escapeChar_alnum c x hx

theorem hexCharLower_hex (n : Nat) (h : n < 16) : isLowerHex (hexCharLower n) = true := by
  have hv : (if n < 10 then 48 + n else 87 + n).isValidChar := by
    constructor
    split <;> omega
  simp only [isLowerHex, hexCharLower, Bool.or_eq_true, Bool.and_eq_true,
    decide_eq_true_eq, char_toNat_ofNat _ hv]
  split <;> omega

theorem byteHexLower_hex (b : Nat) : ∀ x ∈ byteHexLower b, isLowerHex x = true := by
  intro x hx
  simp only [byteHexLower, List.mem_cons, List.mem_singleton, List.not_mem_nil, or_false] at hx
  rcases hx with rfl | rfl
  · exact hexCharLower_hex _ (Nat.mod_lt _ (by omega))
  · exact hexCharLower_hex _ (Nat.mod_lt _ (by omega))

theorem hexdigest_chars (s : String) : ∀ x ∈ (hexdigest s).data, isLowerHex x = true := by
  intro x hx
  simp only [hexdigest, data_mk, List.mem_flatMap] at hx
  obtain ⟨b, _, hx⟩ := hx
  exact byteHexLower_hex b x hx

theorem flatMap_byteHexLower_length (l : List Nat) :
    (l.flatMap byteHexLower).length = 2 * l.length := by
  induction l with
  | nil => rfl
  | cons b bs ih =>
    simp only [List.flatMap_cons, List.length_append, List.length_cons, ih, byteHexLower,
      List.length_nil]
    omega

theorem sha256bytes_length (msg : List Nat) : (sha256bytes msg).length = 32 := by
  simp [sha256bytes, wordBytesBE]

theorem hexdigest_length (s : String) : (hexdigest s).length = 64 := by
  simp only [hexdigest, length_mk, flatMap_byteHexLower_length, sha256bytes_length]

/-! ## Helper lemmas: the name mangler -/

theorem char_toNat_inj (a b : Char) (h : a.toNat = b.toNat) : a = b := by
  rcases a with ⟨⟨av⟩, ha⟩
  rcases b with ⟨⟨bv⟩, hb⟩
  simp only [Char.toNat, UInt32.toNat] at h
  congr 2
  exact BitVec.toNat_injective h

theorem contains_false_of_not_mem (l : List Char) (a : Char) (h : a ∉ l) :
    l.contains a = false := by
  induction l with
  | nil => rfl
  | cons x xs ih =>
    simp only [List.contains_cons, Bool.or_eq_false_iff]
    constructor
    · simp only [beq_eq_false_iff_ne, ne_eq]
      intro he
      exact h (he ▸ List.mem_cons_self x xs)
    · exact ih (fun hm => h (List.mem_cons_of_mem x hm))

theorem pyTake_sub (k : Int) (l : List Char) : ∀ x ∈ pyTake k l, x ∈ l := by
  intro x hx
  simp only [pyTake] at hx
  split_ifs at hx <;> exact List.take_subset _ _ hx

theorem pyTake_length_le (k : Int) (l : List Char) (h : 0 ≤ k) :
    (pyTake k l).length ≤ k.toNat := by
  simp only [pyTake, if_pos h, List.length_take]
  omega

theorem safe_slug_data (slug : String) (limit : Int) (hl : Nat) :
    (_safe_build_slug slug limit hl).data =
      (pyTake (limit - hl - 1) (escape slug).data ++
        '-' :: (hexdigest slug).data.take hl).map Char.toLower := rfl

theorem safe_slug_chars (slug : String) (limit : Int) (hl : Nat) :
    ∀ x ∈ (_safe_build_slug slug limit hl).data, isLowerAlnumDash x = true := by
  intro x hx
  rw [safe_slug_data] at hx
  simp only [List.mem_map, List.mem_append, List.mem_cons] at hx
  obtain ⟨c, hc, rfl⟩ := hx
  apply lower_of_alnumDash
  rcases hc with hc | rfl | hc
  · exact escape_chars slug c (pyTake_sub _ _ c hc)
  · decide
  · exact lowerAlnumDash_sub _ (lowerHex_sub _ (hexdigest_chars slug c (List.take_subset _ _ hc)))

theorem safe_slug_length_le (slug : String) (limit : Int) (hl : Nat)
    (h : 0 ≤ limit - hl - 1) :
    (_safe_build_slug slug limit hl).length ≤ (limit - hl - 1).toNat + 1 + hl := by
  rw [length_eq_data, safe_slug_data]
  simp only [List.length_map, List.length_append, List.length_cons, List.length_take]
  have h1 := pyTake_length_le (limit - hl - 1) (escape slug).data h
  have h2 : (hexdigest slug).data.length = 64 := hexdigest_length slug
  omega

theorem safe_slug_getLast (slug : String) (limit : Int) (hl : Nat) (h : 1 ≤ hl) :
    ∃ c, (_safe_build_slug slug limit hl).data.getLast? = some c ∧ isLowerHex c = true := by
  have hdl : (hexdigest slug).data.length = 64 := hexdigest_length slug
  have hne : (hexdigest slug).data.take hl ≠ [] := by
    intro hemp
    have := congrArg List.length hemp
    simp only [List.length_take, List.length_nil, hdl] at this
    omega
  obtain ⟨c, hc⟩ : ∃ c, ((hexdigest slug).data.take hl).getLast? = some c := by
    cases hlist : (hexdigest slug).data.take hl with
    | nil => exact absurd hlist hne
    | cons y ys => exact ⟨(y :: ys).getLast (by simp), List.getLast?_eq_getLast _ _⟩
  have hcmem : c ∈ (hexdigest slug).data.take hl := by
    exact List.mem_of_mem_getLast? hc
  have hhex : isLowerHex c = true :=
    hexdigest_chars slug c (List.take_subset _ _ hcmem)
  refine ⟨c, ?_, hhex⟩
  rw [safe_slug_data, List.getLast?_map]
  rw [List.getLast?_append_of_ne_nil _ (by simp)]
  have hcons : ('-' :: (hexdigest slug).data.take hl) = ['-'] ++ (hexdigest slug).data.take hl := rfl
  rw [hcons, List.getLast?_append_of_ne_nil _ hne, hc]
  simp [toLower_fix_lower c (lowerHex_sub c hhex)]

theorem generate_data (s r pfx : String) (limit rl : Nat) :
    (_generate_build_name s r pfx limit rl).data =
      (pfx.data ++ ((_safe_build_slug s ((limit : Int) - pfx.length - rl - 1) 6).data ++
        ('-' :: (_safe_build_slug r rl 2).data.take rl))).map Char.toLower := by
  simp only [_generate_build_name, toLowerStr, data_mk, data_append]
  simp [List.append_assoc]

theorem generate_chars (s r pfx : String) (limit rl : Nat)
    (hp : ∀ x ∈ pfx.data, isAlnumDash x = true) :
    ∀ x ∈ (_generate_build_name s r pfx limit rl).data, isLowerAlnumDash x = true := by
  intro x hx
  rw [generate_data] at hx
  simp only [List.mem_map, List.mem_append, List.mem_cons] at hx
  obtain ⟨c, hc, rfl⟩ := hx
  apply lower_of_alnumDash
  rcases hc with hc | hc | rfl | hc
  · exact hp c hc
  · exact lowerAlnumDash_sub _ (safe_slug_chars _ _ _ c hc)
  · decide
  · exact lowerAlnumDash_sub _ (safe_slug_chars _ _ _ c (List.take_subset _ _ hc))

theorem generate_length_le (s r pfx : String) (limit rl : Nat)
    (h : pfx.length + rl + 9 ≤ limit) :
    (_generate_build_name s r pfx limit rl).length ≤ limit := by
  rw [length_eq_data, generate_data]
  simp only [List.length_map, List.length_append, List.length_cons, List.length_take]
  have h2 := safe_slug_length_le s ((limit : Int) - pfx.length - rl - 1) 6 (by omega)
  rw [length_eq_data] at h2
  have hp : pfx.data.length = pfx.length := rfl
  have hb : (_safe_build_slug s ((limit : Int) - pfx.length - rl - 1) 6).data.length =
      (_safe_build_slug s ((limit : Int) - pfx.length - rl - 1) 6).length := rfl
  omega

/-- C7: for every build slug and ref, `_generate_build_name` with the
call-site prefix `build-` is deterministic, at most 63 characters long,
and uses only ASCII lowercase letters, digits and dashes. -/
theorem claim_C7 : ∀ slug ref : String,
    _generate_build_name slug ref "build-" 63 6 = _generate_build_name slug ref "build-" 63 6 ∧
    (_generate_build_name slug ref "build-" 63 6).length ≤ 63 ∧
    (_generate_build_name slug ref "build-" 63 6).data.all isLowerAlnumDash = true := by
  intro slug ref
  refine ⟨rfl, ?_, ?_⟩
  · exact generate_length_le slug ref "build-" 63 6 (by decide)
  · rw [List.all_eq_true]
    intro x hx
    exact generate_chars slug ref "build-" 63 6 (by decide) x hx

theorem imageName_data (imagePfx slug ref : String) :
    (imageNameOf imagePfx slug ref).data =
      ((imagePfx.data ++ ((_safe_build_slug slug ((255 : Int) - imagePfx.length) 6).data ++
        (':' :: ref.data))).map (fun c => if c = '_' then '-' else c)).map Char.toLower := by
  simp only [imageNameOf, toLowerStr, data_mk, data_append]
  simp [List.append_assoc]

/-- C8 counterexample: with an empty image prefix, a 248-character build
slug and a 6-character ref, the computed image name has 262 characters,
exceeding the claimed bound of 255 (the 255-character limit applies to
the part before the `:{ref}` tag only). -/
theorem claim_C8_cex :
    255 < (imageNameOf "" (⟨List.replicate 248 'a'⟩ : String) "abcdef").length := by decide

/-- C8 amended: when `len(image_prefix) ≤ 248` (so the slug limit of the
escape scheme is not negative), the part of the image name before the
appended `:{ref}` tag, namely `image_prefix ++ safe_slug_255`, has at
most 255 characters; the full image name therefore has at most
`256 + len(ref)` characters, but not 255 in general. -/
theorem claim_C8_amended : ∀ (imagePfx slug ref : String), imagePfx.length ≤ 248 →
    (imageNameOf imagePfx slug ref).length ≤ 256 + ref.length ∧
    (imagePfx ++ _safe_build_slug slug ((255 : Int) - imagePfx.length) 6).length ≤ 255 := by
  intro p s r hp
  have hs := safe_slug_length_le s ((255 : Int) - p.length) 6 (by omega)
  rw [length_eq_data] at hs
  have hpd : p.data.length = p.length := rfl
  have hrd : r.data.length = r.length := rfl
  constructor
  · rw [length_eq_data, imageName_data]
    simp only [List.length_map, List.length_append, List.length_cons]
    omega
  · rw [length_eq_data, data_append]
    simp only [List.length_append]
    omega

/-- C8 witness: a concrete instance of the amended bound. -/
theorem claim_C8_witness :
    (imageNameOf "" "owner/repo" "abc123").length ≤ 256 + ("abc123" : String).length ∧
    ("" ++ _safe_build_slug "owner/repo" ((255 : Int) - ("" : String).length) 6).length ≤ 255 :=
  claim_C8_amended "" "owner/repo" "abc123" (by decide)

theorem lowerAlnumDash_ne_underscore (c : Char) (h : isLowerAlnumDash c = true) :
    c.toNat ≠ 95 := by
  simp only [isLowerAlnumDash, Bool.or_eq_true, Bool.and_eq_true, decide_eq_true_eq,
    beq_iff_eq] at h
  omega

theorem buildName_head (slug ref : String) :
    (_generate_build_name slug ref "build-" 63 6).data.head? = some 'b' := by
  rw [generate_data]
  rw [show ("build-" : String).data = 'b' :: ['u', 'i', 'l', 'd', '-'] from rfl]
  simp only [List.cons_append, List.map_cons, List.head?_cons]
  decide

theorem buildName_getLast (slug ref : String) :
    ∃ c, (_generate_build_name slug ref "build-" 63 6).data.getLast? = some c ∧
      isLowerHex c = true := by
  obtain ⟨c, hc, hhex⟩ := safe_slug_getLast ref (((6 : Nat) : Int)) 2 (by omega)
  have hne : (_safe_build_slug ref (((6 : Nat) : Int)) 2).data ≠ [] := by
    intro he
    rw [he] at hc
    simp at hc
  have htake : (_safe_build_slug ref (((6 : Nat) : Int)) 2).data.take 6 =
      (_safe_build_slug ref (((6 : Nat) : Int)) 2).data := by
    apply List.take_of_length_le
    have h6 := safe_slug_length_le ref (((6 : Nat) : Int)) 2 (by omega)
    rw [length_eq_data] at h6
    omega
  refine ⟨c, ?_, hhex⟩
  rw [generate_data, List.getLast?_map, htake]
  rw [List.getLast?_append_of_ne_nil _ (by simp)]
  rw [List.getLast?_append_of_ne_nil _ (by simp)]
  rw [show ('-' :: (_safe_build_slug ref (((6 : Nat) : Int)) 2).data) =
    ['-'] ++ (_safe_build_slug ref (((6 : Nat) : Int)) 2).data from rfl]
  rw [List.getLast?_append_of_ne_nil _ hne, hc]
  simp [toLower_fix_lower c (lowerHex_sub c hhex)]

theorem imageName_chars_ne_underscore (imagePfx slug ref : String) :
    ∀ x ∈ (imageNameOf imagePfx slug ref).data, x.toNat ≠ 95 := by
  intro x hx
  rw [imageName_data, List.map_map] at hx
  simp only [List.mem_map, Function.comp_apply] at hx
  obtain ⟨c, _, rfl⟩ := hx
  by_cases hc : c = '_'
  · subst hc
    decide
  · rw [if_neg hc]
    have hc95 : c.toNat ≠ 95 := fun h95 => hc (char_toNat_inj c '_' (by rw [h95]; decide))
    by_cases hu : 65 ≤ c.toNat ∧ c.toNat ≤ 90
    · rw [toLower_toNat_of_upper c hu]
      omega
    · rw [toLower_of_not_upper c hu]
      exact hc95

/-- C9 counterexample: the claim quantifies over every prefix, but with
prefix `-x` the generated build name starts with `-`. -/
theorem claim_C9_cex :
    noEdgeDashNoUnderscore (_generate_build_name "a" "b" "-x" 63 6) = false ∧
    (_generate_build_name "a" "b" "-x" 63 6).data.head? = some '-' := by decide

/-- C9 amended: for every slug and ref, the build name generated at its
call site (prefix `build-`) has no leading dash, no trailing dash and no
underscore; and for every image prefix the image name contains no
underscore (the `replace('_', '-')` step removes them all). -/
theorem claim_C9_amended : ∀ (slug ref imagePfx : String),
    noEdgeDashNoUnderscore (_generate_build_name slug ref "build-" 63 6) = true ∧
    (imageNameOf imagePfx slug ref).data.contains '_' = false := by
  intro slug ref p
  constructor
  · simp only [noEdgeDashNoUnderscore, Bool.and_eq_true, Bool.not_eq_true']
    refine ⟨⟨?_, ?_⟩, ?_⟩
    · rw [buildName_head]
      decide
    · obtain ⟨c, hl, hhex⟩ := buildName_getLast slug ref
      rw [hl]
      show (c == '-') = false
      exact lowerHex_ne_dash c hhex
    · apply contains_false_of_not_mem
      intro hm
      exact lowerAlnumDash_ne_underscore '_'
        (generate_chars slug ref "build-" 63 6 (by decide) '_' hm) rfl
  · apply contains_false_of_not_mem
    intro hm
    exact imageName_chars_ne_underscore p slug ref '_' hm rfl


/-! ## Helper lemmas: the build event loop -/

theorem loop_of_done (img : String) (st : BuildLoopState) (evs : List BuildEvent)
    (h : st.done = true) : buildLoop img st evs = st := by
  cases evs with
  | nil => rfl
  | cons e es => simp [buildLoop, h]

theorem loop_cons_not_done (img : String) (st : BuildLoopState) (e : BuildEvent)
    (es : List BuildEvent) (h : st.done = false) :
    buildLoop img st (e :: es) = buildLoop img (buildStep img st e) es := by
  simp [buildLoop, h]

theorem buildLoop_append (img : String) (a b : List BuildEvent) (st : BuildLoopState) :
    buildLoop img st (a ++ b) = buildLoop img (buildLoop img st a) b := by
  induction a generalizing st with
  | nil => rfl
  | cons e es ih =>
    cases hd : st.done with
    | true =>
      rw [List.cons_append, loop_of_done img st _ hd, loop_of_done img st _ hd,
        loop_of_done img st _ hd]
    | false =>
      rw [List.cons_append, loop_cons_not_done img st _ _ hd, loop_cons_not_done img st _ _ hd]
      exact ih (buildStep img st e)

theorem step_failed_mono (img : String) (st : BuildLoopState) (e : BuildEvent)
    (h : st.failed = true) : (buildStep img st e).failed = true := by
  cases e with
  | phasechange pl =>
    simp only [buildStep]
    split_ifs <;> exact h
  | log p =>
    simp only [buildStep]
    split_ifs <;> first
      | rfl
      | exact h

theorem loop_failed_mono (img : String) (evs : List BuildEvent) (st : BuildLoopState)
    (h : st.failed = true) : (buildLoop img st evs).failed = true := by
  induction evs generalizing st with
  | nil => exact h
  | cons e es ih =>
    cases hd : st.done with
    | true => rw [loop_of_done img st _ hd]; exact h
    | false =>
      rw [loop_cons_not_done img st _ _ hd]
      exact ih _ (step_failed_mono img st e h)

theorem step_frames_mono (img : String) (st : BuildLoopState) (e : BuildEvent) :
    ∃ t, (buildStep img st e).frames = st.frames ++ t := by
  cases e with
  | phasechange pl =>
    simp only [buildStep]
    split_ifs <;> first
      | exact ⟨_, rfl⟩
      | exact ⟨[], (List.append_nil _).symm⟩
  | log p =>
    simp only [buildStep]
    split_ifs <;> exact ⟨_, rfl⟩

theorem loop_frames_mono (img : String) (evs : List BuildEvent) (st : BuildLoopState) :
    ∃ t, (buildLoop img st evs).frames = st.frames ++ t := by
  induction evs generalizing st with
  | nil => exact ⟨[], by simp [buildLoop]⟩
  | cons e es ih =>
    cases hd : st.done with
    | true => rw [loop_of_done img st _ hd]; exact ⟨[], by simp⟩
    | false =>
      rw [loop_cons_not_done img st _ _ hd]
      obtain ⟨t1, ht1⟩ := step_frames_mono img st e
      obtain ⟨t2, ht2⟩ := ih (buildStep img st e)
      exact ⟨t1 ++ t2, by rw [ht2, ht1, List.append_assoc]⟩

theorem step_metrics_mono (img : String) (st : BuildLoopState) (e : BuildEvent) :
    ∃ t, (buildStep img st e).metrics = st.metrics ++ t := by
  cases e with
  | phasechange pl =>
    simp only [buildStep]
    split_ifs <;> exact ⟨[], (List.append_nil _).symm⟩
  | log p =>
    simp only [buildStep]
    split_ifs <;> first
      | exact ⟨_, rfl⟩
      | exact ⟨[], (List.append_nil _).symm⟩

theorem loop_metrics_mono (img : String) (evs : List BuildEvent) (st : BuildLoopState) :
    ∃ t, (buildLoop img st evs).metrics = st.metrics ++ t := by
  induction evs generalizing st with
  | nil => exact ⟨[], by simp [buildLoop]⟩
  | cons e es ih =>
    cases hd : st.done with
    | true => rw [loop_of_done img st _ hd]; exact ⟨[], by simp⟩
    | false =>
      rw [loop_cons_not_done img st _ _ hd]
      obtain ⟨t1, ht1⟩ := step_metrics_mono img st e
      obtain ⟨t2, ht2⟩ := ih (buildStep img st e)
      exact ⟨t1 ++ t2, by rw [ht2, ht1, List.append_assoc]⟩

theorem step_metrics_shape (img : String) (st : BuildLoopState) (e : BuildEvent)
    (h : ∀ m ∈ st.metrics, m = Metric.buildTime "failure" ∨ m = Metric.buildCount "failure") :
    ∀ m ∈ (buildStep img st e).metrics,
      m = Metric.buildTime "failure" ∨ m = Metric.buildCount "failure" := by
  intro m hm
  cases e with
  | phasechange pl =>
    simp only [buildStep] at hm
    split_ifs at hm <;> exact h m hm
  | log p =>
    simp only [buildStep] at hm
    by_cases hp : (p.phase = some "failure" ∨ p.phase = some "failed")
    · rw [if_pos hp] at hm
      rcases List.mem_append.mp hm with hm2 | hm2
      · exact h m hm2
      · simp only [List.mem_cons, List.mem_singleton, List.not_mem_nil, or_false] at hm2
        tauto
    · rw [if_neg hp] at hm
      exact h m hm

theorem loop_metrics_shape (img : String) (evs : List BuildEvent) (st : BuildLoopState)
    (h : ∀ m ∈ st.metrics, m = Metric.buildTime "failure" ∨ m = Metric.buildCount "failure") :
    ∀ m ∈ (buildLoop img st evs).metrics,
      m = Metric.buildTime "failure" ∨ m = Metric.buildCount "failure" := by
  induction evs generalizing st with
  | nil => exact h
  | cons e es ih =>
    cases hd : st.done with
    | true => rw [loop_of_done img st _ hd]; exact h
    | false =>
      rw [loop_cons_not_done img st _ _ hd]
      exact ih _ (step_metrics_shape img st e h)

theorem step_logSubmits_le (img : String) (st : BuildLoopState) (e : BuildEvent)
    (h : st.logSubmits ≤ 1) : (buildStep img st e).logSubmits ≤ 1 := by
  cases e with
  | phasechange pl =>
    simp only [buildStep]
    split_ifs with h1 h2 h3 h4 h5
    · exact h
    · exact h
    · show st.logSubmits + 1 ≤ 1
      omega
    · exact h
    · exact h
    · exact h
  | log p =>
    simp only [buildStep]
    split_ifs <;> exact h

theorem loop_logSubmits_le (img : String) (evs : List BuildEvent) (st : BuildLoopState)
    (h : st.logSubmits ≤ 1) : (buildLoop img st evs).logSubmits ≤ 1 := by
  induction evs generalizing st with
  | nil => exact h
  | cons e es ih =>
    cases hd : st.done with
    | true => rw [loop_of_done img st _ hd]; exact h
    | false =>
      rw [loop_cons_not_done img st _ _ hd]
      exact ih _ (step_logSubmits_le img st e h)

/-- C2: the queue-consumption state machine of `BuildHandler.get`.
A `pod.phasechange` event with payload `Pending` or `Succeeded` changes
nothing; the first `Running` payload submits the log-streaming task
(recorded in `logSubmits`) and later `Running` payloads are no-ops, so
over any whole run at most one submission happens; `Deleted` emits the
`built` frame (with the image name) and ends consumption; any other pod
phase is emitted as a bare `{phase: payload}` frame and consumption
continues. -/
theorem claim_C2 : ∀ (img : String) (st : BuildLoopState), st.done = false →
    (buildStep img st (.phasechange "Pending") = st) ∧
    (buildStep img st (.phasechange "Succeeded") = st) ∧
    (st.logSubmits = 0 →
      buildStep img st (.phasechange "Running") = { st with logSubmits := st.logSubmits + 1 }) ∧
    (st.logSubmits ≠ 0 → buildStep img st (.phasechange "Running") = st) ∧
    (buildStep img st (.phasechange "Deleted") =
      { st with frames := st.frames ++ [builtFrame img], done := true }) ∧
    (∀ pl, pl ≠ "Pending" → pl ≠ "Deleted" → pl ≠ "Running" → pl ≠ "Succeeded" →
      buildStep img st (.phasechange pl) = { st with frames := st.frames ++ [Frame.podPhase pl] }) ∧
    (∀ rest, buildLoop img st (.phasechange "Deleted" :: rest) =
      buildStep img st (.phasechange "Deleted")) ∧
    (∀ evs, (buildLoop img initBuildState evs).logSubmits ≤ 1) := by
  intro img st hdone
  refine ⟨?_, ?_, ?_, ?_, ?_, ?_, ?_, ?_⟩
  · simp [buildStep]
  · simp [buildStep]
  · intro h0
    simp [buildStep, h0]
  · intro h0
    simp [buildStep, h0]
  · simp [buildStep]
  · intro pl h1 h2 h3 h4
    simp [buildStep, h1, h2, h3, h4]
  · intro rest
    rw [loop_cons_not_done img st _ _ hdone]
    exact loop_of_done _ _ _ (by simp [buildStep])
  · intro evs
    exact loop_logSubmits_le img evs initBuildState (by simp [initBuildState])

/-- C2 witness: the state machine at a concrete mid-stream state. -/
theorem claim_C2_witness : buildStep "img" stMid (.phasechange "Pending") = stMid :=
  (claim_C2 "img" stMid rfl).1

theorem buildPath_failed_outcome (img : String) (lenv : LaunchEnv) (evs : List BuildEvent)
    (hf : (buildLoop img initBuildState evs).failed = true) :
    (buildPath img lenv evs).frames = waitingFrame :: (buildLoop img initBuildState evs).frames ∧
    (buildPath img lenv evs).metrics = (buildLoop img initBuildState evs).metrics ∧
    (buildPath img lenv evs).attempts = 0 := by
  simp only [buildPath]
  cases hd : (buildLoop img initBuildState evs).done with
  | true => simp [hd, hf]
  | false => simp [hd]

/-- C4: consuming a `log` build event whose payload has phase `failure`
or `failed` records `build_time{failure}` and `build_count{failure}`,
emits the log payload as-is, and the launch step is never invoked for
the request: no `launcher.launch` call is made and no launch metric is
recorded. -/
theorem claim_C4 : ∀ (img : String) (lenv : LaunchEnv) (pre post : List BuildEvent)
    (p : LogPayload),
    (p.phase = some "failure" ∨ p.phase = some "failed") →
    (buildLoop img initBuildState pre).done = false →
    (Frame.log p ∈ (buildPath img lenv (pre ++ BuildEvent.log p :: post)).frames ∧
     Metric.buildTime "failure" ∈ (buildPath img lenv (pre ++ BuildEvent.log p :: post)).metrics ∧
     Metric.buildCount "failure" ∈ (buildPath img lenv (pre ++ BuildEvent.log p :: post)).metrics ∧
     (buildPath img lenv (pre ++ BuildEvent.log p :: post)).attempts = 0 ∧
     (∀ s rl, Metric.launchTime s rl ∈
        (buildPath img lenv (pre ++ BuildEvent.log p :: post)).metrics → False) ∧
     (∀ s, Metric.launchCount s ∈
        (buildPath img lenv (pre ++ BuildEvent.log p :: post)).metrics → False)) := by
  intro img lenv pre post p hp hdone
  have hL : buildLoop img initBuildState (pre ++ BuildEvent.log p :: post) =
      buildLoop img (buildStep img (buildLoop img initBuildState pre) (BuildEvent.log p)) post := by
    rw [buildLoop_append, loop_cons_not_done _ _ _ _ hdone]
  have h1fail : (buildStep img (buildLoop img initBuildState pre) (BuildEvent.log p)).failed = true := by
    simp only [buildStep]
    rw [if_pos hp]
  have hfail : (buildLoop img initBuildState (pre ++ BuildEvent.log p :: post)).failed = true := by
    rw [hL]
    exact loop_failed_mono _ _ _ h1fail
  have hmem1 : Frame.log p ∈ (buildStep img (buildLoop img initBuildState pre) (BuildEvent.log p)).frames := by
    simp only [buildStep]
    rw [if_pos hp]
    exact List.mem_append_right _ (List.mem_singleton.mpr rfl)
  have hmet1 : Metric.buildTime "failure" ∈
      (buildStep img (buildLoop img initBuildState pre) (BuildEvent.log p)).metrics ∧
      Metric.buildCount "failure" ∈
      (buildStep img (buildLoop img initBuildState pre) (BuildEvent.log p)).metrics := by
    simp only [buildStep]
    rw [if_pos hp]
    constructor
    · exact List.mem_append_right _ (by simp)
    · exact List.mem_append_right _ (by simp)
  have hmemF : Frame.log p ∈ (buildLoop img initBuildState (pre ++ BuildEvent.log p :: post)).frames := by
    rw [hL]
    obtain ⟨t, ht⟩ := loop_frames_mono img post
      (buildStep img (buildLoop img initBuildState pre) (BuildEvent.log p))
    rw [ht]
    exact List.mem_append_left _ hmem1
  have hmetF : Metric.buildTime "failure" ∈
      (buildLoop img initBuildState (pre ++ BuildEvent.log p :: post)).metrics ∧
      Metric.buildCount "failure" ∈
      (buildLoop img initBuildState (pre ++ BuildEvent.log p :: post)).metrics := by
    rw [hL]
    obtain ⟨t, ht⟩ := loop_metrics_mono img post
      (buildStep img (buildLoop img initBuildState pre) (BuildEvent.log p))
    rw [ht]
    exact ⟨List.mem_append_left _ hmet1.1, List.mem_append_left _ hmet1.2⟩
  have hshape := loop_metrics_shape img (pre ++ BuildEvent.log p :: post) initBuildState
    (by intro m hm; simp [initBuildState] at hm)
  obtain ⟨hfr, hme, hat⟩ := buildPath_failed_outcome img lenv (pre ++ BuildEvent.log p :: post) hfail
  refine ⟨?_, ?_, ?_, hat, ?_, ?_⟩
  · rw [hfr]
    exact List.mem_cons_of_mem _ hmemF
  · rw [hme]
    exact hmetF.1
  · rw [hme]
    exact hmetF.2
  · intro s rl hmem
    rw [hme] at hmem
    rcases hshape _ hmem with hcontra | hcontra <;> simp at hcontra
  · intro s hmem
    rw [hme] at hmem
    rcases hshape _ hmem with hcontra | hcontra <;> simp at hcontra

/-- C4 witness: a concrete failing build; the failure log is emitted,
failure metrics are recorded, and no launch occurs. -/
theorem claim_C4_witness :
    (buildPath "img" envQuotaZero
        ([BuildEvent.phasechange "Running"] ++
          BuildEvent.log { raw := "x", phase := some "failure" } ::
            [BuildEvent.phasechange "Deleted"])).attempts = 0 :=
  (claim_C4 "img" envQuotaZero [BuildEvent.phasechange "Running"]
    [BuildEvent.phasechange "Deleted"] { raw := "x", phase := some "failure" }
    (Or.inl rfl) (by decide)).2.2.2.1

/-! ## Helper lemmas: the launch retry loop -/

theorem launchLoop_attempts_le ( res : Nat → LaunchResult) (fuel i delay : Nat) :
    (launchLoop res fuel i delay).attempts ≤ fuel := by
  induction fuel generalizing i delay with
  | zero => simp [launchLoop]
  | succ n ih =>
    cases hri : res i with
    | ok url => simp [launchLoop, hri]
    | err m =>
      by_cases hn : n = 0
      · subst hn
        simp [launchLoop, hri]
      · simp only [launchLoop, hri, if_neg hn]
        have := ih (i + 1) (2 * delay)
        omega

theorem launchLoop_cons_err ( res : Nat → LaunchResult) (fuel i delay : Nat) (m : String)
    (hm : res i = .err m) (hf : fuel ≠ 0) :
    launchLoop res (fuel + 1) i delay =
      { frames := retryFrame i :: (launchLoop res fuel (i + 1) (2 * delay)).frames,
        metrics := Metric.launchTime "retry" (-1) :: (launchLoop res fuel (i + 1) (2 * delay)).metrics,
        sleeps := delay :: (launchLoop res fuel (i + 1) (2 * delay)).sleeps,
        attempts := (launchLoop res fuel (i + 1) (2 * delay)).attempts + 1,
        exn := (launchLoop res fuel (i + 1) (2 * delay)).exn } := by
  simp [launchLoop, hm, hf]

theorem retrySeq_eq (k : Nat) : ∀ i, retrySeq i k = (List.range k).map (fun j => retryFrame (i + j)) := by
  induction k with
  | zero => intro i; rfl
  | succ k ih =>
    intro i
    rw [List.range_succ_eq_map, List.map_cons, List.map_map]
    show retryFrame i :: retrySeq (i + 1) k = _
    rw [ih (i + 1)]
    congr 1
    apply List.map_congr_left
    intro j _
    simp only [Function.comp_apply]
    congr 1
    omega

theorem sleepSeq_eq (k : Nat) : ∀ delay, sleepSeq delay k = (List.range k).map (fun j => delay * 2 ^ j) := by
  induction k with
  | zero => intro delay; rfl
  | succ k ih =>
    intro delay
    rw [List.range_succ_eq_map, List.map_cons, List.map_map]
    show delay :: sleepSeq (2 * delay) k = _
    rw [ih (2 * delay)]
    congr 1
    · simp
    · apply List.map_congr_left
      intro j _
      simp only [Function.comp_apply]
      rw [pow_succ]
      ring

theorem launchLoop_ok ( res : Nat → LaunchResult) (k : Nat) :
    ∀ (fuel i delay : Nat) (url : String), k < fuel →
    (∀ j, j < k → ∃ m, res (i + j) = .err m) → res (i + k) = .ok url →
    launchLoop res fuel i delay =
      { frames := retrySeq i k ++ [readyFrame url],
        metrics := List.replicate k (Metric.launchTime "retry" (-1)) ++
          [Metric.launchTime "success" (Int.ofNat (i + k)), Metric.launchCount "success"],
        sleeps := sleepSeq delay k,
        attempts := k + 1, exn := none } := by
  induction k with
  | zero =>
    intro fuel i delay url hk _ hok
    obtain ⟨n, rfl⟩ : ∃ n, fuel = n + 1 := ⟨fuel - 1, by omega⟩
    rw [show i + 0 = i from rfl] at hok
    simp [launchLoop, hok, retrySeq, sleepSeq]
  | succ k ih =>
    intro fuel i delay url hk herr hok
    obtain ⟨n, rfl⟩ : ∃ n, fuel = n + 1 := ⟨fuel - 1, by omega⟩
    obtain ⟨m, hm⟩ := herr 0 (by omega)
    rw [show i + 0 = i from rfl] at hm
    have hn : n ≠ 0 := by omega
    rw [launchLoop_cons_err res n i delay m hm hn]
    rw [ih n (i + 1) (2 * delay) url (by omega)
      (by
        intro j hj
        obtain ⟨m2, hm2⟩ := herr (j + 1) (by omega)
        exact ⟨m2, by rw [show i + 1 + j = i + (j + 1) by omega]; exact hm2⟩)
      (by rw [show i + 1 + k = i + (k + 1) by omega]; exact hok)]
    rw [show i + 1 + k = i + (k + 1) by omega]
    rfl

theorem launchLoop_allfail ( res : Nat → LaunchResult) (k : Nat) :
    ∀ (i delay : Nat) (m : String),
    (∀ j, j < k → ∃ m2, res (i + j) = .err m2) → res (i + k) = .err m →
    launchLoop res (k + 1) i delay =
      { frames := retrySeq i k ++ [Frame.failRaw m],
        metrics := List.replicate k (Metric.launchTime "retry" (-1)) ++
          [Metric.launchTime "failure" (-1), Metric.launchCount "failure"],
        sleeps := sleepSeq delay k,
        attempts := k + 1, exn := some (.launchErr m) } := by
  induction k with
  | zero =>
    intro i delay m _ hlast
    rw [show i + 0 = i from rfl] at hlast
    simp [launchLoop, hlast, retrySeq, sleepSeq]
  | succ k ih =>
    intro i delay m herr hlast
    obtain ⟨m0, hm0⟩ := herr 0 (by omega)
    rw [show i + 0 = i from rfl] at hm0
    rw [launchLoop_cons_err res (k + 1) i delay m0 hm0 (Nat.succ_ne_zero k)]
    rw [ih (i + 1) (2 * delay) m
      (by
        intro j hj
        obtain ⟨m2, hm2⟩ := herr (j + 1) (by omega)
        exact ⟨m2, by rw [show i + 1 + j = i + (j + 1) by omega]; exact hm2⟩)
      (by rw [show i + 1 + k = i + (k + 1) by omega]; exact hlast)]
    rfl

/-- C3: the retry loop of `BuildHandler.launch` makes at most
`launcher.retries` attempts. When the first success happens at 0-based
attempt `i`, the loop emits one retry frame per preceding failure, sleeps
`delay, 2*delay, ...` (doubling after each failure), observes
`launch_time{retry, -1}` per failed attempt, observes
`launch_time{success, i}` and `launch_count{success}` and emits the
`ready` frame with the server url. When all attempts fail, every
non-final failure observes `launch_time{retry, -1}`, the final one
observes `launch_time{failure, -1}` and `launch_count{failure}`, the
`failed` frame carries the exception message and the exception is
re-raised. -/
theorem claim_C3 : ∀ ( res : Nat → LaunchResult) (retries delay : Nat),
    ((launchLoop res retries 0 delay).attempts ≤ retries) ∧
    (∀ i url, i < retries → (∀ j, j < i → ∃ m, res j = .err m) → res i = .ok url →
      launchLoop res retries 0 delay =
        { frames := retrySeq 0 i ++ [readyFrame url],
          metrics := List.replicate i (Metric.launchTime "retry" (-1)) ++
            [Metric.launchTime "success" (Int.ofNat i), Metric.launchCount "success"],
          sleeps := sleepSeq delay i, attempts := i + 1, exn := none }) ∧
    (∀ m, (∀ j, j + 1 < retries → ∃ m2, res j = .err m2) → res (retries - 1) = .err m →
      1 ≤ retries →
      launchLoop res retries 0 delay =
        { frames := retrySeq 0 (retries - 1) ++ [Frame.failRaw m],
          metrics := List.replicate (retries - 1) (Metric.launchTime "retry" (-1)) ++
            [Metric.launchTime "failure" (-1), Metric.launchCount "failure"],
          sleeps := sleepSeq delay (retries - 1), attempts := retries,
          exn := some (.launchErr m) }) ∧
    (∀ k, retrySeq 0 k = (List.range k).map (fun j => retryFrame j)) ∧
    (∀ k, sleepSeq delay k = (List.range k).map (fun j => delay * 2 ^ j)) := by
  intro res retries delay
  refine ⟨launchLoop_attempts_le res retries 0 delay, ?_, ?_, ?_, ?_⟩
  · intro i url hi herr hok
    have h := launchLoop_ok res i retries 0 delay url hi
      (fun j hj => by rw [Nat.zero_add]; exact herr j hj)
      (by rw [Nat.zero_add]; exact hok)
    rw [Nat.zero_add] at h
    exact h
  · intro m herr hlast h1
    obtain ⟨n, rfl⟩ : ∃ n, retries = n + 1 := ⟨retries - 1, by omega⟩
    simp only [Nat.add_sub_cancel] at hlast ⊢
    exact launchLoop_allfail res n 0 delay m
      (fun j hj => by rw [Nat.zero_add]; exact herr j (by omega))
      (by rw [Nat.zero_add]; exact hlast)
  · intro k
    have h := retrySeq_eq k 0
    rw [h]
    apply List.map_congr_left
    intro j _
    rw [Nat.zero_add]
  · intro k
    exact sleepSeq_eq k delay

/-- C3 witness: two failures then a success, with `retries = 4` and
initial delay 3. -/
theorem claim_C3_witness :
    launchLoop resTwoErrs 4 0 3 =
      { frames := retrySeq 0 2 ++ [readyFrame "http://u"],
        metrics := List.replicate 2 (Metric.launchTime "retry" (-1)) ++
          [Metric.launchTime "success" (Int.ofNat 2), Metric.launchCount "success"],
        sleeps := sleepSeq 3 2, attempts := 3, exn := none } :=
  (claim_C3 resTwoErrs 4 3).2.1 2 "http://u" (by omega)
    (fun j hj => ⟨"boom", by simp [resTwoErrs, hj]⟩) (by simp [resTwoErrs])

/-! ## C5: the quota gate of `BuildHandler.launch` -/

/-- C5 counterexample: with `quota: 0` defined in the repo configuration
and `matching_pods = 0 ≥ 0 = quota`, Python evaluates
`if quota and matching_pods >= quota:` to false (0 is falsy), so the
handler does not emit the failure frame and proceeds to launch: one
launch attempt is made and a success launch-time observation is
recorded. -/
theorem claim_C5_cex :
    envQuotaZero.quota = some 0 ∧
    matchingPods envQuotaZero.pods (dropTag envQuotaZero.image) = 0 ∧
    (launchModel envQuotaZero).frames = [launchingFrame, readyFrame "http://u"] ∧
    (launchModel envQuotaZero).attempts = 1 ∧
    (launchModel envQuotaZero).metrics =
      [Metric.launchTime "success" (Int.ofNat 0), Metric.launchCount "success"] := by
  refine ⟨rfl, rfl, ?_, ?_, ?_⟩ <;> decide

/-- C5 amended: when the repo configuration defines a nonzero quota and
at least `quota` of the listed pods run the request image (first
matching container, tag stripped), `launch` emits a single `failed`
frame whose message contains the repo URL, makes no `launcher.launch`
call, and records no metric observation at all. -/
theorem claim_C5_amended : ∀ (env : LaunchEnv) (q : Nat), env.quota = some q → 1 ≤ q →
    q ≤ matchingPods env.pods (dropTag env.image) →
    (launchModel env).frames = [Frame.fail (quotaMessage env.repoUrl)] ∧
    (∃ pre suf, (quotaMessage env.repoUrl).data = pre ++ env.repoUrl.data ++ suf) ∧
    (launchModel env).attempts = 0 ∧
    (launchModel env).metrics = [] ∧
    (launchModel env).exn = none := by
  intro env q hq h1 hle
  have hblock : quotaBlocked env.quota (matchingPods env.pods (dropTag env.image)) = true := by
    rw [hq]
    simp only [quotaBlocked, Bool.and_eq_true, decide_eq_true_eq]
    exact ⟨by omega, hle⟩
  have hmodel : launchModel env =
      { frames := [Frame.fail (quotaMessage env.repoUrl)],
        metrics := [], sleeps := [], attempts := 0, exn := none } := by
    simp only [launchModel, hblock, if_true]
  rw [hmodel]
  refine ⟨rfl, ?_, rfl, rfl, rfl⟩
  refine ⟨("Too many users running " : String).data,
    ("! Try again soon.\n" ++ env.repoUrl ++
      "の実行が集中しています。しばらく待っても改善しない場合は、管理者へお問い合わせください。" : String).data, ?_⟩
  simp only [quotaMessage, data_append, List.append_assoc]

/-- C5 witness: a pod list with five pods running the image and
`quota = 5` trips the gate. -/
theorem claim_C5_witness :
    (launchModel
      { pods := [["img:a"], ["img:b"], ["img:c"], ["img:d"], ["img:e"]],
        quota := some 5, image := "img:tag", repoUrl := "http://r",
        retries := 1, retryDelay := 1, results := fun _ => .ok "http://u" }).attempts = 0 :=
  (claim_C5_amended
    { pods := [["img:a"], ["img:b"], ["img:c"], ["img:d"], ["img:e"]],
      quota := some 5, image := "img:tag", repoUrl := "http://r",
      retries := 1, retryDelay := 1, results := fun _ => .ok "http://u" }
    5 rfl (by omega) (by decide)).2.2.1

/-! ## C6: the registry probe -/

theorem splitChar_of_not_mem (sep : Char) (l : List Char) (h : sep ∉ l) :
    splitChar sep l = [l] := by
  induction l with
  | nil => rfl
  | cons c cs ih =>
    have hc : c ≠ sep := fun he => h (he ▸ List.mem_cons_self c cs)
    have hcs : sep ∉ cs := fun hm => h (List.mem_cons_of_mem c hm)
    simp only [splitChar, ih hcs, if_neg hc]

theorem breakAtColon_of_append (a y : List Char) (ha : ':' ∉ a) :
    breakAtColon (a ++ ':' :: y) = some (a, y) := by
  induction a with
  | nil => simp [breakAtColon]
  | cons c cs ih =>
    have hc : c ≠ ':' := fun he => ha (he ▸ List.mem_cons_self c cs)
    have hcs : ':' ∉ cs := fun hm => ha (List.mem_cons_of_mem c hm)
    simp only [List.cons_append, breakAtColon, if_neg hc, List.append_eq]
    rw [ih hcs]

theorem mk_data (s : String) : String.mk s.data = s := by
  rcases s with ⟨l⟩
  rfl

theorem lastTwo_of_no_slash (s : String) (h : '/' ∉ s.data) :
    lastTwoSlashComponents s = s := by
  simp only [lastTwoSlashComponents]
  rw [splitChar_of_not_mem _ _ h]
  exact mk_data s

/-- C6 counterexample: the code splits `'/'.join(name.split('/')[-2:])`
at the leftmost colon (`.split(':', 1)`), not the image name at the
rightmost colon as the claim states; on `x:y:z` the two disagree. -/
theorem claim_C6_cex :
    registryCallArgs "x:y:z" = ["x", "y:z"] ∧
    registrySplitRightmost "x:y:z" = ["x:y", "z"] := by decide

/-- C6 amended: with `use_registry`, the handler joins the last two
`/`-components of the image name and splits that string at the leftmost
colon into `(repo, tag)`; it calls `get_image_manifest` up to 3 times
while transport errors are raised, treats the image as present iff a
truthy manifest is returned, and after 3 failed attempts treats the
image as not found (the build path proceeds). -/
theorem claim_C6_amended : ∀ ( res : Nat → RegResult),
    (probeCalls res ≤ 3) ∧
    (res 0 = .err → res 1 = .err → res 2 = .err →
      imageFoundRegistry res = false ∧ probeCalls res = 3) ∧
    (∀ t, res 0 = .manifest t → imageFoundRegistry res = t ∧ probeCalls res = 1) ∧
    (∀ t, res 0 = .err → res 1 = .manifest t →
      imageFoundRegistry res = t ∧ probeCalls res = 2) ∧
    (∀ t, res 0 = .err → res 1 = .err → res 2 = .manifest t →
      imageFoundRegistry res = t ∧ probeCalls res = 3) ∧
    (∀ a b : String, ':' ∉ a.data → '/' ∉ a.data → '/' ∉ b.data →
      registryCallArgs (a ++ ":" ++ b) = [a, b]) := by
  intro res
  refine ⟨?_, ?_, ?_, ?_, ?_, ?_⟩
  · rcases h0 : res 0 with _ | t
    · rcases h1 : res 1 with _ | t
      · rcases h2 : res 2 with _ | t <;> simp [probeCalls, probe3, h0, h1, h2]
      · simp [probeCalls, probe3, h0, h1]
    · simp [probeCalls, probe3, h0]
  · intro h0 h1 h2
    constructor <;> simp [imageFoundRegistry, probeCalls, probe3, h0, h1, h2]
  · intro t h0
    constructor <;> simp [imageFoundRegistry, probeCalls, probe3, h0]
  · intro t h0 h1
    constructor <;> simp [imageFoundRegistry, probeCalls, probe3, h0, h1]
  · intro t h0 h1 h2
    constructor <;> simp [imageFoundRegistry, probeCalls, probe3, h0, h1, h2]
  · intro a b ha has hbs
    have hdata : (a ++ ":" ++ b).data = a.data ++ ':' :: b.data := by
      rw [data_append, data_append]
      simp [List.append_assoc]
    have hnos : '/' ∉ (a ++ ":" ++ b).data := by
      rw [hdata]
      intro hm
      rcases List.mem_append.mp hm with hm | hm
      · exact has hm
      · rcases List.mem_cons.mp hm with he | hm
        · exact absurd he.symm (by decide)
        · exact hbs hm
    simp only [registryCallArgs, lastTwo_of_no_slash _ hnos, splitOnceColon, hdata,
      breakAtColon_of_append a.data b.data ha]

/-- C6 witness: one transport error then a truthy manifest, and the
standard split of a one-colon image name. -/
theorem claim_C6_witness :
    (imageFoundRegistry regErrThenHit = true ∧ probeCalls regErrThenHit = 2) ∧
    registryCallArgs ("img-slug" ++ ":" ++ "abc123") = ["img-slug", "abc123"] :=
  ⟨(claim_C6_amended regErrThenHit).2.2.2.1 true rfl rfl,
   (claim_C6_amended regErrThenHit).2.2.2.2.2 "img-slug" "abc123"
     (by decide) (by decide) (by decide)⟩

/-! ## C1: terminal-frame ordering -/

theorem isTerminal_fail (m : String) : isTerminal (Frame.fail m) = true := rfl

theorem isTerminal_failRaw (m : String) : isTerminal (Frame.failRaw m) = true := rfl

theorem isTerminal_ready (u : String) : isTerminal (readyFrame u) = true := rfl

theorem isTerminal_retry (i : Nat) : isTerminal (retryFrame i) = false := rfl

theorem isTerminal_launching : isTerminal launchingFrame = false := rfl

theorem isTerminal_waiting : isTerminal waitingFrame = false := rfl

theorem isTerminal_builtFound (img : String) : isTerminal (builtFoundFrame img) = false := rfl

theorem isTerminal_built (img : String) : isTerminal (builtFrame img) = false := rfl

theorem ntb_nil : nonTerminalBody [] = true := rfl

theorem ntb_single (f : Frame) : nonTerminalBody [f] = true := rfl

theorem tc_single_le (f : Frame) : terminalCount [f] ≤ 1 := by
  simp only [terminalCount, List.filter]
  cases isTerminal f <;> simp

theorem allNonTerm_props (fs : List Frame) (h : fs.all (fun f => !isTerminal f) = true) :
    nonTerminalBody fs = true ∧ terminalCount fs = 0 := by
  constructor
  · simp only [nonTerminalBody, List.all_eq_true] at h ⊢
    intro f hf
    exact h f (List.mem_of_mem_dropLast hf)
  · have hnil : fs.filter isTerminal = [] := by
      rw [List.filter_eq_nil_iff]
      intro a ha
      have := (List.all_eq_true.mp h) a ha
      simp only [Bool.not_eq_true'] at this
      simp [this]
    simp [terminalCount, hnil]

theorem ntb_cons (a : Frame) (fs : List Frame) (ha : isTerminal a = false) (hne : fs ≠ [])
    (h : nonTerminalBody fs = true) : nonTerminalBody (a :: fs) = true := by
  simp only [nonTerminalBody] at h ⊢
  rw [List.dropLast_cons_of_ne_nil hne]
  simp [ha, h]

theorem tc_cons_nonterm (a : Frame) (fs : List Frame) (ha : isTerminal a = false) :
    terminalCount (a :: fs) = terminalCount fs := by
  simp [terminalCount, List.filter_cons, ha]

theorem goodTail_append (A B : List Frame) (hA : A.all (fun f => !isTerminal f) = true)
    (hB : nonTerminalBody B = true) :
    nonTerminalBody (A ++ B) = true ∧ terminalCount (A ++ B) = terminalCount B := by
  have hAnil : A.filter isTerminal = [] := by
    rw [List.filter_eq_nil_iff]
    intro a ha
    have := (List.all_eq_true.mp hA) a ha
    simp only [Bool.not_eq_true'] at this
    simp [this]
  cases hBe : B with
  | nil =>
    rw [List.append_nil]
    obtain ⟨h1, h2⟩ := allNonTerm_props A hA
    exact ⟨h1, by rw [h2]; rfl⟩
  | cons b bs =>
    rw [← hBe]
    constructor
    · simp only [nonTerminalBody]
      rw [List.dropLast_append_of_ne_nil A (by rw [hBe]; simp), List.all_append]
      simp only [Bool.and_eq_true]
      exact ⟨hA, hB⟩
    · simp [terminalCount, List.filter_append, hAnil]

theorem launchLoop_good ( res : Nat → LaunchResult) (fuel i delay : Nat) :
    nonTerminalBody (launchLoop res fuel i delay).frames = true ∧
    terminalCount (launchLoop res fuel i delay).frames ≤ 1 ∧
    (fuel ≠ 0 → (launchLoop res fuel i delay).frames ≠ []) := by
  induction fuel generalizing i delay with
  | zero => exact ⟨rfl, by simp [launchLoop, terminalCount], fun h => absurd rfl h⟩
  | succ n ih =>
    cases hri : res i with
    | ok url =>
      simp only [launchLoop, hri]
      exact ⟨ntb_single _, tc_single_le _, by simp⟩
    | err m =>
      by_cases hn : n = 0
      · subst hn
        simp only [launchLoop, hri, if_pos rfl]
        exact ⟨ntb_single _, tc_single_le _, by simp⟩
      · simp only [launchLoop, hri, if_neg hn]
        obtain ⟨ihb, ihc, ihne⟩ := ih (i + 1) (2 * delay)
        refine ⟨ntb_cons _ _ (isTerminal_retry i) (ihne hn) ihb, ?_, by simp⟩
        rw [tc_cons_nonterm _ _ (isTerminal_retry i)]
        exact ihc

theorem launchModel_good (lenv : LaunchEnv) :
    nonTerminalBody (launchModel lenv).frames = true ∧
    terminalCount (launchModel lenv).frames ≤ 1 ∧ (launchModel lenv).frames ≠ [] := by
  by_cases hq : quotaBlocked lenv.quota (matchingPods lenv.pods (dropTag lenv.image)) = true
  · simp only [launchModel, hq, if_true]
    exact ⟨ntb_single _, tc_single_le _, by simp⟩
  · simp only [launchModel, if_neg hq]
    obtain ⟨hb, hc, hne⟩ := launchLoop_good lenv.results lenv.retries 0 lenv.retryDelay
    by_cases hr : lenv.retries = 0
    · have hfr : (launchLoop lenv.results lenv.retries 0 lenv.retryDelay).frames = [] := by
        rw [hr]
        rfl
      refine ⟨?_, ?_, by simp⟩
      · show nonTerminalBody (launchingFrame ::
          (launchLoop lenv.results lenv.retries 0 lenv.retryDelay).frames) = true
        rw [hfr]
        exact ntb_single _
      · show terminalCount (launchingFrame ::
          (launchLoop lenv.results lenv.retries 0 lenv.retryDelay).frames) ≤ 1
        rw [hfr]
        exact tc_single_le _
    · refine ⟨ntb_cons _ _ isTerminal_launching (hne hr) hb, ?_, by simp⟩
      rw [tc_cons_nonterm _ _ isTerminal_launching]
      exact hc

theorem cleanEvent_podPhase (pl : String) (h : cleanEvent (.phasechange pl) = true) :
    isTerminal (Frame.podPhase pl) = false := by
  simp only [cleanEvent, Bool.and_eq_true, Bool.not_eq_true'] at h
  show ((pl == "ready") || (pl == "failed")) = false
  rw [h.1, h.2]
  rfl

theorem cleanEvent_log (p : LogPayload) (h : cleanEvent (.log p) = true) :
    isTerminal (Frame.log p) = false := by
  simp only [cleanEvent, Bool.and_eq_true, Bool.not_eq_true'] at h
  show ((p.phase == some "ready") || (p.phase == some "failed")) = false
  rw [h.1, h.2]
  rfl

theorem step_frames_clean (img : String) (st : BuildLoopState) (e : BuildEvent)
    (he : cleanEvent e = true) (h : st.frames.all (fun f => !isTerminal f) = true) :
    (buildStep img st e).frames.all (fun f => !isTerminal f) = true := by
  cases e with
  | phasechange pl =>
    simp only [buildStep]
    split_ifs with h1 h2 h3 h4 h5
    · exact h
    · show (st.frames ++ [builtFrame img]).all (fun f => !isTerminal f) = true
      rw [List.all_append]
      simp [h, isTerminal_built]
    · exact h
    · exact h
    · exact h
    · show (st.frames ++ [Frame.podPhase pl]).all (fun f => !isTerminal f) = true
      rw [List.all_append]
      simp [h, cleanEvent_podPhase pl he]
  | log p =>
    simp only [buildStep]
    split_ifs with h1
    · show (st.frames ++ [Frame.log p]).all (fun f => !isTerminal f) = true
      rw [List.all_append]
      simp [h, cleanEvent_log p he]
    · show (st.frames ++ [Frame.log p]).all (fun f => !isTerminal f) = true
      rw [List.all_append]
      simp [h, cleanEvent_log p he]

theorem loop_frames_clean (img : String) (evs : List BuildEvent) :
    evs.all cleanEvent = true →
    ∀ st : BuildLoopState, st.frames.all (fun f => !isTerminal f) = true →
      (buildLoop img st evs).frames.all (fun f => !isTerminal f) = true := by
  induction evs with
  | nil => intro _ st h; exact h
  | cons e es ih =>
    intro hev st h
    simp only [List.all_cons, Bool.and_eq_true] at hev
    cases hd : st.done with
    | true => rw [loop_of_done img st _ hd]; exact h
    | false =>
      rw [loop_cons_not_done img st _ _ hd]
      exact ih hev.2 _ (step_frames_clean img st e hev.1 h)

theorem buildPath_good (img : String) (lenv : LaunchEnv) (events : List BuildEvent)
    (hev : events.all cleanEvent = true) :
    nonTerminalBody (buildPath img lenv events).frames = true ∧
    terminalCount (buildPath img lenv events).frames ≤ 1 := by
  have hstall : (buildLoop img initBuildState events).frames.all (fun f => !isTerminal f) = true :=
    loop_frames_clean img events hev initBuildState rfl
  have hwait : ((waitingFrame :: (buildLoop img initBuildState events).frames).all
      (fun f => !isTerminal f)) = true := by
    simp only [List.all_cons, Bool.and_eq_true]
    exact ⟨by rw [isTerminal_waiting]; rfl, hstall⟩
  simp only [buildPath]
  cases hd : (buildLoop img initBuildState events).done with
  | true =>
    cases hf : (buildLoop img initBuildState events).failed with
    | true =>
      simp only [hd, hf, if_true]
      obtain ⟨h1, h2⟩ := allNonTerm_props _ hwait
      exact ⟨h1, by omega⟩
    | false =>
      simp only [hd, hf, if_true, Bool.false_eq_true, if_false]
      obtain ⟨hb, hc, _⟩ := launchModel_good lenv
      obtain ⟨h1, h2⟩ := goodTail_append
        (waitingFrame :: (buildLoop img initBuildState events).frames)
        (launchModel lenv).frames hwait hb
      exact ⟨h1, by rw [List.cons_append] at h2 ⊢; omega⟩
  | false =>
    simp only [hd, Bool.false_eq_true, if_false]
    obtain ⟨h1, h2⟩ := allNonTerm_props _ hwait
    exact ⟨h1, by omega⟩

theorem getAfterAuth_good (env : GetEnv) (hev : env.buildEvents.all cleanEvent = true) :
    nonTerminalBody (getAfterAuth env).frames = true ∧
    terminalCount (getAfterAuth env).frames ≤ 1 := by
  simp only [getAfterAuth]
  cases hrr : env.resolvedRef with
  | error e => exact ⟨ntb_single _, tc_single_le _⟩
  | ok oref =>
    cases oref with
    | none => exact ⟨ntb_single _, tc_single_le _⟩
    | some ref =>
      cases hfnd : (if env.useRegistry then imageFoundRegistry env.regResults
          else env.localImageFound) with
      | true =>
        simp only [hfnd, if_true]
        obtain ⟨hb, hc, hne⟩ := launchModel_good (env.launchEnv (imageNameOf env.imagePfx env.buildSlug ref))
        refine ⟨ntb_cons _ _ (isTerminal_builtFound _) hne hb, ?_⟩
        rw [tc_cons_nonterm _ _ (isTerminal_builtFound _)]
        exact hc
      | false =>
        simp only [hfnd, Bool.false_eq_true, if_false]
        exact buildPath_good _ _ _ hev

/-- C1 counterexample: the builder queue reports pod phase `failed`
(echoed verbatim as a `{phase: failed}` frame) before `Deleted`; the
request then still builds and launches successfully, so the stream
carries two terminal-phase frames and the `failed` one is not last. -/
theorem claim_C1_cex :
    terminalCount (streamFrames envTwoTerminals) = 2 ∧
    (streamFrames envTwoTerminals).map Frame.phase? =
      [some "waiting", some "failed", some "built", some "launching", some "ready"] := by
  decide

/-- For the frames the `get` coroutine itself emits (the `send_error`
frame written after an escaped exception is accounted separately in
`streamFrames`): under the clean-queue proviso, every such frame except
possibly the last is non-terminal, and at most one is terminal. -/
theorem getModel_frames_good : ∀ env : GetEnv, env.buildEvents.all cleanEvent = true →
    nonTerminalBody (getModel env).frames = true ∧
    terminalCount (getModel env).frames ≤ 1 := by
  intro env hev
  have hafter := getAfterAuth_good env hev
  simp only [getModel]
  cases hpe : env.providerExists with
  | false =>
    rw [if_pos rfl]
    exact ⟨ntb_single _, tc_single_le _⟩
  | true =>
    rw [if_neg (by simp)]
    cases hge : env.getProviderError with
    | some e => exact ⟨ntb_single _, tc_single_le _⟩
    | none =>
      cases hb : env.isBanned with
      | true =>
        rw [if_pos rfl]
        exact ⟨ntb_single _, tc_single_le _⟩
      | false =>
        rw [if_neg (by simp)]
        cases hap : env.authProviderId with
        | none =>
          cases huc : env.userctx with
          | none =>
            simp only [Option.isSome_none, Bool.false_and, Bool.false_eq_true, if_false]
            exact hafter
          | some u =>
            exact ⟨ntb_nil, by rw [show terminalCount [] = 0 from rfl]; omega⟩
        | some a =>
          cases huc : env.userctx with
          | none =>
            cases hae : env.authEnabled with
            | false =>
              simp only [Option.isSome_some, Bool.true_and, Bool.false_eq_true, if_false]
              exact hafter
            | true =>
              simp only [Option.isSome_some, Bool.true_and, if_true]
              cases hrt : env.repoToken with
              | some t => exact hafter
              | none =>
                cases hst : env.storedToken with
                | none =>
                  simp only [Option.isSome_none, Bool.false_and, Bool.false_eq_true, if_false]
                  exact ⟨ntb_single _, tc_single_le _⟩
                | some tk =>
                  cases hsv : env.storedTokenValid with
                  | false =>
                    simp only [Option.isSome_some, Bool.not_false, Bool.true_and, if_true]
                    exact ⟨ntb_single _, tc_single_le _⟩
                  | true =>
                    simp only [Option.isSome_some, Bool.not_true, Bool.and_false,
                      Bool.false_eq_true, if_false]
                    exact hafter
          | some u =>
            cases hae : env.authEnabled with
            | false =>
              simp only [Option.isSome_some, Bool.true_and, Bool.false_eq_true, if_false]
              exact hafter
            | true =>
              simp only [Option.isSome_some, Bool.true_and, if_true]
              cases hrt : env.repoToken with
              | some t => exact hafter
              | none =>
                cases hst : env.storedToken with
                | none =>
                  simp only [Option.isSome_none, Bool.false_and, Bool.false_eq_true, if_false]
                  exact ⟨ntb_single _, tc_single_le _⟩
                | some tk =>
                  cases hsv : env.storedTokenValid with
                  | false =>
                    simp only [Option.isSome_some, Bool.not_false, Bool.true_and, if_true]
                    exact ⟨ntb_single _, tc_single_le _⟩
                  | true =>
                    simp only [Option.isSome_some, Bool.not_true, Bool.and_false,
                      Bool.false_eq_true, if_false]
                    exact hafter



/-- C10: when `get_authorization_provider()` returns `None` but the
request carries a `userctx` query argument, the `auth_provider_id +=
'-' + caller_userctx` line raises an unhandled `TypeError` before the
ref is resolved and before any frame is emitted, whatever the
`auth_enabled` setting. -/
theorem claim_C10 : ∀ (env : GetEnv) (u : String), env.providerExists = true →
    env.getProviderError = none → env.isBanned = false → env.authProviderId = none →
    env.userctx = some u →
    (getModel env).exit = .raised .typeError ∧
    (getModel env).frames = [] ∧
    (getModel env).metrics = [] ∧
    (getModel env).refRead = false ∧
    (getModel env).attempts = 0 := by
  intro env u hpe hge hb hap huc
  simp only [getModel, hpe, hge, hb, hap, huc]
  norm_num

/-- C10 witness: a concrete request with `userctx=ctx`, no authorization
provider, and `auth_enabled = true`. -/
theorem claim_C10_witness :
    (getModel envUserctx).exit = .raised .typeError ∧
    (getModel envUserctx).frames = [] ∧
    (getModel envUserctx).metrics = [] ∧
    (getModel envUserctx).refRead = false ∧
    (getModel envUserctx).attempts = 0 :=
  claim_C10 envUserctx "ctx" rfl rfl rfl rfl rfl

theorem isTerminal_errEv (c : Nat) (m : String) : isTerminal (Frame.errEv c m) = true := rfl

theorem isReady_errEv (c : Nat) (m : String) : isReady (Frame.errEv c m) = false := rfl

theorem isReady_failRaw (m : String) : isReady (Frame.failRaw m) = false := rfl

theorem notReady_of_notTerminal (f : Frame) (h : isTerminal f = false) : isReady f = false := by
  simp only [isTerminal, Bool.or_eq_false_iff] at h
  show (f.phase? == some "ready") = false
  exact h.1

theorem tto_of_ntb (fs : List Frame) (h : nonTerminalBody fs = true) :
    tailTerminalOnly fs = true := by
  simp only [nonTerminalBody, tailTerminalOnly, List.all_eq_true] at h ⊢
  intro f hf
  exact h f (List.mem_of_mem_dropLast hf)

theorem dropLast_notReady_of_ntb (fs : List Frame) (h : nonTerminalBody fs = true) :
    fs.dropLast.all (fun f => !isReady f) = true := by
  simp only [nonTerminalBody, List.all_eq_true] at h ⊢
  intro f hf
  have hnt := h f hf
  simp only [Bool.not_eq_true'] at hnt ⊢
  exact notReady_of_notTerminal f hnt

theorem launchLoop_exn_cases ( res : Nat → LaunchResult) (fuel : Nat) :
    ∀ i delay,
      ((launchLoop res fuel i delay).exn ≠ some PyExn.typeError) ∧
      (fuel ≠ 0 → (launchLoop res fuel i delay).exn ≠ some PyExn.unboundLocal) := by
  induction fuel with
  | zero =>
    intro i delay
    exact ⟨by simp [launchLoop], fun h => absurd rfl h⟩
  | succ n ih =>
    intro i delay
    cases hri : res i with
    | ok url => constructor <;> simp [launchLoop, hri]
    | err m =>
      by_cases hn : n = 0
      · subst hn
        constructor <;> simp [launchLoop, hri]
      · simp only [launchLoop, hri, if_neg hn]
        exact ⟨(ih (i + 1) (2 * delay)).1, fun _ => (ih (i + 1) (2 * delay)).2 hn⟩

theorem launchLoop_exn_launchErr ( res : Nat → LaunchResult) (fuel : Nat) :
    ∀ i delay m, (launchLoop res fuel i delay).exn = some (.launchErr m) →
      ∃ B, (launchLoop res fuel i delay).frames = B ++ [Frame.failRaw m] ∧
        B.all (fun f => !isTerminal f) = true := by
  induction fuel with
  | zero =>
    intro i delay m h
    simp [launchLoop] at h
  | succ n ih =>
    intro i delay m h
    cases hri : res i with
    | ok url =>
      simp only [launchLoop, hri] at h
      simp at h
    | err m0 =>
      by_cases hn : n = 0
      · subst hn
        simp only [launchLoop, hri, if_pos rfl] at h
        obtain rfl : m0 = m := by simpa using h
        refine ⟨[], ?_, rfl⟩
        simp [launchLoop, hri]
      · simp only [launchLoop, hri, if_neg hn] at h ⊢
        obtain ⟨B, hB, hall⟩ := ih (i + 1) (2 * delay) m h
        refine ⟨retryFrame i :: B, by simp [hB], ?_⟩
        simp only [List.all_cons, Bool.and_eq_true]
        exact ⟨by simp [isTerminal_retry], hall⟩

theorem launchModel_no_typeError (lenv : LaunchEnv) :
    (launchModel lenv).exn ≠ some PyExn.typeError := by
  by_cases hq : quotaBlocked lenv.quota (matchingPods lenv.pods (dropTag lenv.image)) = true
  · simp [launchModel, hq]
  · simp only [launchModel, if_neg hq]
    exact (launchLoop_exn_cases lenv.results lenv.retries 0 lenv.retryDelay).1

theorem launchModel_exn_unbound (lenv : LaunchEnv)
    (h : (launchModel lenv).exn = some PyExn.unboundLocal) :
    (launchModel lenv).frames.all (fun f => !isTerminal f) = true := by
  by_cases hq : quotaBlocked lenv.quota (matchingPods lenv.pods (dropTag lenv.image)) = true
  · simp [launchModel, hq] at h
  · simp only [launchModel, if_neg hq] at h ⊢
    by_cases hr : lenv.retries = 0
    · have hfr : (launchLoop lenv.results lenv.retries 0 lenv.retryDelay).frames = [] := by
        rw [hr]
        rfl
      show (launchingFrame :: (launchLoop lenv.results lenv.retries 0 lenv.retryDelay).frames).all
        (fun f => !isTerminal f) = true
      rw [hfr]
      rfl
    · exact absurd h ((launchLoop_exn_cases lenv.results lenv.retries 0 lenv.retryDelay).2 hr)

theorem launchModel_exn_launchErr (lenv : LaunchEnv) (m : String)
    (h : (launchModel lenv).exn = some (.launchErr m)) :
    ∃ B, (launchModel lenv).frames = B ++ [Frame.failRaw m] ∧
      B.all (fun f => !isTerminal f) = true := by
  by_cases hq : quotaBlocked lenv.quota (matchingPods lenv.pods (dropTag lenv.image)) = true
  · simp [launchModel, hq] at h
  · simp only [launchModel, if_neg hq] at h ⊢
    obtain ⟨B, hB, hall⟩ :=
      launchLoop_exn_launchErr lenv.results lenv.retries 0 lenv.retryDelay m h
    refine ⟨launchingFrame :: B, by simp [hB], ?_⟩
    simp only [List.all_cons, Bool.and_eq_true]
    exact ⟨by simp [isTerminal_launching], hall⟩

theorem exitOfLaunch_raised (lo : LaunchOutcome) (e : PyExn)
    (h : exitOfLaunch lo = .raised e) : lo.exn = some e := by
  cases hx : lo.exn with
  | none => simp [exitOfLaunch, hx] at h
  | some e2 =>
    simp only [exitOfLaunch, hx, ExitKind.raised.injEq] at h
    rw [h]

theorem getAfterAuth_err_shape (env : GetEnv) (hev : env.buildEvents.all cleanEvent = true) :
    (∀ m, (getAfterAuth env).exit = .raised (.launchErr m) →
      ∃ B, (getAfterAuth env).frames = B ++ [Frame.failRaw m] ∧
        B.all (fun f => !isTerminal f) = true) ∧
    ((getAfterAuth env).exit = .raised .typeError → (getAfterAuth env).frames = []) ∧
    ((getAfterAuth env).exit = .raised .unboundLocal →
      (getAfterAuth env).frames.all (fun f => !isTerminal f) = true) := by
  simp only [getAfterAuth]
  cases hrr : env.resolvedRef with
  | error e =>
    exact ⟨fun m h => absurd h (by simp), fun h => absurd h (by simp),
      fun h => absurd h (by simp)⟩
  | ok oref =>
    cases oref with
    | none =>
      exact ⟨fun m h => absurd h (by simp), fun h => absurd h (by simp),
        fun h => absurd h (by simp)⟩
    | some ref =>
      cases hfnd : (if env.useRegistry then imageFoundRegistry env.regResults
          else env.localImageFound) with
      | true =>
        simp only [hfnd, if_true]
        refine ⟨?_, ?_, ?_⟩
        · intro m h
          have hexn := exitOfLaunch_raised _ _ h
          obtain ⟨B, hB, hall⟩ := launchModel_exn_launchErr _ m hexn
          refine ⟨builtFoundFrame (imageNameOf env.imagePfx env.buildSlug ref) :: B,
            by simp [hB], ?_⟩
          simp only [List.all_cons, Bool.and_eq_true]
          exact ⟨by simp [isTerminal_builtFound], hall⟩
        · intro h
          exact absurd (exitOfLaunch_raised _ _ h) (launchModel_no_typeError _)
        · intro h
          have hall := launchModel_exn_unbound _ (exitOfLaunch_raised _ _ h)
          simp only [List.all_cons, Bool.and_eq_true]
          exact ⟨by simp [isTerminal_builtFound], hall⟩
      | false =>
        simp only [hfnd, Bool.false_eq_true, if_false, buildPath]
        cases hd : (buildLoop (imageNameOf env.imagePfx env.buildSlug ref)
            initBuildState env.buildEvents).done with
        | false =>
          simp only [hd, Bool.false_eq_true, if_false]
          exact ⟨fun m h => absurd h (by simp), fun h => absurd h (by simp),
            fun h => absurd h (by simp)⟩
        | true =>
          cases hf : (buildLoop (imageNameOf env.imagePfx env.buildSlug ref)
              initBuildState env.buildEvents).failed with
          | true =>
            simp only [hd, hf, if_true]
            exact ⟨fun m h => absurd h (by simp), fun h => absurd h (by simp),
              fun h => absurd h (by simp)⟩
          | false =>
            simp only [hd, hf, if_true, Bool.false_eq_true, if_false]
            have hstall := loop_frames_clean (imageNameOf env.imagePfx env.buildSlug ref)
              env.buildEvents hev initBuildState rfl
            refine ⟨?_, ?_, ?_⟩
            · intro m h
              have hexn := exitOfLaunch_raised _ _ h
              obtain ⟨B, hB, hall⟩ := launchModel_exn_launchErr _ m hexn
              refine ⟨waitingFrame :: (buildLoop (imageNameOf env.imagePfx env.buildSlug ref)
                  initBuildState env.buildEvents).frames ++ B, ?_, ?_⟩
              · rw [hB]
                simp [List.append_assoc]
              · simp only [List.all_cons, List.all_append, Bool.and_eq_true]
                exact ⟨⟨by simp [isTerminal_waiting], hstall⟩, hall⟩
            · intro h
              exact absurd (exitOfLaunch_raised _ _ h) (launchModel_no_typeError _)
            · intro h
              have hall := launchModel_exn_unbound _ (exitOfLaunch_raised _ _ h)
              simp only [List.all_cons, List.all_append, Bool.and_eq_true]
              exact ⟨⟨by simp [isTerminal_waiting], hstall⟩, hall⟩

theorem getModel_err_shape (env : GetEnv) (hev : env.buildEvents.all cleanEvent = true) :
    (∀ m, (getModel env).exit = .raised (.launchErr m) →
      ∃ B, (getModel env).frames = B ++ [Frame.failRaw m] ∧
        B.all (fun f => !isTerminal f) = true) ∧
    ((getModel env).exit = .raised .typeError → (getModel env).frames = []) ∧
    ((getModel env).exit = .raised .unboundLocal →
      (getModel env).frames.all (fun f => !isTerminal f) = true) := by
  have hafter := getAfterAuth_err_shape env hev
  simp only [getModel]
  cases hpe : env.providerExists with
  | false =>
    rw [if_pos rfl]
    exact ⟨fun m h => absurd h (by simp), fun h => absurd h (by simp),
      fun h => absurd h (by simp)⟩
  | true =>
    rw [if_neg (by simp)]
    cases hge : env.getProviderError with
    | some e =>
      exact ⟨fun m h => absurd h (by simp), fun h => absurd h (by simp),
        fun h => absurd h (by simp)⟩
    | none =>
      cases hb : env.isBanned with
      | true =>
        rw [if_pos rfl]
        exact ⟨fun m h => absurd h (by simp), fun h => absurd h (by simp),
          fun h => absurd h (by simp)⟩
      | false =>
        rw [if_neg (by simp)]
        cases hap : env.authProviderId with
        | none =>
          cases huc : env.userctx with
          | none =>
            simp only [Option.isSome_none, Bool.false_and, Bool.false_eq_true, if_false]
            exact hafter
          | some u =>
            exact ⟨fun m h => absurd h (by simp), fun _ => rfl,
              fun h => absurd h (by simp)⟩
        | some a =>
          cases huc : env.userctx with
          | none =>
            cases hae : env.authEnabled with
            | false =>
              simp only [Option.isSome_some, Bool.true_and, Bool.false_eq_true, if_false]
              exact hafter
            | true =>
              simp only [Option.isSome_some, Bool.true_and, if_true]
              cases hrt : env.repoToken with
              | some t => exact hafter
              | none =>
                cases hst : env.storedToken with
                | none =>
                  simp only [Option.isSome_none, Bool.false_and, Bool.false_eq_true, if_false]
                  exact ⟨fun m h => absurd h (by simp), fun h => absurd h (by simp),
                    fun h => absurd h (by simp)⟩
                | some tk =>
                  cases hsv : env.storedTokenValid with
                  | false =>
                    simp only [Option.isSome_some, Bool.not_false, Bool.true_and, if_true]
                    exact ⟨fun m h => absurd h (by simp), fun h => absurd h (by simp),
                      fun h => absurd h (by simp)⟩
                  | true =>
                    simp only [Option.isSome_some, Bool.not_true, Bool.and_false,
                      Bool.false_eq_true, if_false]
                    exact hafter
          | some u =>
            cases hae : env.authEnabled with
            | false =>
              simp only [Option.isSome_some, Bool.true_and, Bool.false_eq_true, if_false]
              exact hafter
            | true =>
              simp only [Option.isSome_some, Bool.true_and, if_true]
              cases hrt : env.repoToken with
              | some t => exact hafter
              | none =>
                cases hst : env.storedToken with
                | none =>
                  simp only [Option.isSome_none, Bool.false_and, Bool.false_eq_true, if_false]
                  exact ⟨fun m h => absurd h (by simp), fun h => absurd h (by simp),
                    fun h => absurd h (by simp)⟩
                | some tk =>
                  cases hsv : env.storedTokenValid with
                  | false =>
                    simp only [Option.isSome_some, Bool.not_false, Bool.true_and, if_true]
                    exact ⟨fun m h => absurd h (by simp), fun h => absurd h (by simp),
                      fun h => absurd h (by simp)⟩
                  | true =>
                    simp only [Option.isSome_some, Bool.not_true, Bool.and_false,
                      Bool.false_eq_true, if_false]
                    exact hafter

theorem tc_concat (A : List Frame) (f : Frame) (hf : isTerminal f = true) :
    terminalCount (A ++ [f]) = terminalCount A + 1 := by
  simp [terminalCount, List.filter_append, List.filter_cons, hf]

theorem allNotReady_of_allNonTerm (fs : List Frame)
    (h : fs.all (fun f => !isTerminal f) = true) :
    fs.all (fun f => !isReady f) = true := by
  simp only [List.all_eq_true] at h ⊢
  intro f hf
  have hnt := h f hf
  simp only [Bool.not_eq_true'] at hnt ⊢
  exact notReady_of_notTerminal f hnt

/-- C1 (amended): provided no build-queue event itself injects the phase
strings `ready` or `failed`, the data frames actually written to the
client — the frames `get` emits plus the extra `{phase: failed,
status_code: 500}` frame the overridden `send_error` writes when `get`
raises — satisfy: every frame before the last two is non-terminal, at
most two frames are terminal, no `ready` frame is ever followed by
another frame, and two terminal frames occur only on the
final-launch-failure path, where the handler frame
`{phase: failed, message}` is directly followed by the `send_error`
frame and both carry phase `failed`. `Exactly one` remains false: a
successful request ends with exactly one (`ready`), but auth redirects,
bans and build failures end with zero. -/
theorem claim_C1_amended : ∀ env : GetEnv, env.buildEvents.all cleanEvent = true →
    tailTerminalOnly (streamFrames env) = true ∧
    terminalCount (streamFrames env) ≤ 2 ∧
    (streamFrames env).dropLast.all (fun f => !isReady f) = true ∧
    (terminalCount (streamFrames env) ≤ 1 ∨
      ∃ m B f, (getModel env).exit = ExitKind.raised (PyExn.launchErr m) ∧
        streamFrames env = B ++ [Frame.failRaw m, f] ∧
        B.all (fun x => !isTerminal x) = true ∧ f.phase? = some "failed") := by
  intro env hev
  obtain ⟨hntb, htc⟩ := getModel_frames_good env hev
  obtain ⟨hle, hte, hub⟩ := getModel_err_shape env hev
  cases hex : (getModel env).exit with
  | normal =>
    have hsf : streamFrames env = (getModel env).frames := by
      simp [streamFrames, sendErrorFrames, hex]
    rw [hsf]
    exact ⟨tto_of_ntb _ hntb, le_trans htc (by omega),
      dropLast_notReady_of_ntb _ hntb, Or.inl htc⟩
  | blocked =>
    have hsf : streamFrames env = (getModel env).frames := by
      simp [streamFrames, sendErrorFrames, hex]
    rw [hsf]
    exact ⟨tto_of_ntb _ hntb, le_trans htc (by omega),
      dropLast_notReady_of_ntb _ hntb, Or.inl htc⟩
  | raised e =>
    have hsf : streamFrames env =
        (getModel env).frames ++ [Frame.errEv 500 (extract_message e ++ "\n")] := by
      simp [streamFrames, sendErrorFrames, hex]
    have hdl : (streamFrames env).dropLast = (getModel env).frames := by
      rw [hsf]
      simp
    have htc2 : terminalCount (streamFrames env) =
        terminalCount (getModel env).frames + 1 := by
      rw [hsf]
      exact tc_concat _ _ (isTerminal_errEv _ _)
    refine ⟨?_, ?_, ?_, ?_⟩
    · simp only [tailTerminalOnly]
      rw [hdl]
      exact hntb
    · rw [htc2]
      omega
    · rw [hdl]
      cases e with
      | typeError =>
        rw [hte hex]
        rfl
      | launchErr m =>
        obtain ⟨B, hB, hall⟩ := hle m hex
        rw [hB]
        simp only [List.all_append, Bool.and_eq_true]
        exact ⟨allNotReady_of_allNonTerm B hall, rfl⟩
      | unboundLocal =>
        exact allNotReady_of_allNonTerm _ (hub hex)
    · cases e with
      | typeError =>
        left
        rw [htc2, hte hex]
        simp [terminalCount]
      | launchErr m =>
        right
        obtain ⟨B, hB, hall⟩ := hle m hex
        refine ⟨m, B, Frame.errEv 500 (extract_message (PyExn.launchErr m) ++ "\n"),
          rfl, ?_, hall, rfl⟩
        rw [hsf, hB]
        simp [List.append_assoc]
      | unboundLocal =>
        left
        have h0 := (allNonTerm_props _ (hub hex)).2
        rw [htc2, h0]

/-- C1 witness: the clean successful build-and-launch request emits one
terminal frame (`ready`), it is last, and `send_error` adds nothing. -/
theorem claim_C1_witness :
    tailTerminalOnly (streamFrames envBuildOk) = true ∧
    terminalCount (streamFrames envBuildOk) ≤ 2 ∧
    (streamFrames envBuildOk).dropLast.all (fun f => !isReady f) = true ∧
    (terminalCount (streamFrames envBuildOk) ≤ 1 ∨
      ∃ m B f, (getModel envBuildOk).exit = ExitKind.raised (PyExn.launchErr m) ∧
        streamFrames envBuildOk = B ++ [Frame.failRaw m, f] ∧
        B.all (fun x => !isTerminal x) = true ∧ f.phase? = some "failed") :=
  claim_C1_amended envBuildOk (by decide)
